import Mathlib

/-!
Verification of the MicroV guest-memory-management core
(src/vmm/src/hve/arch/intel_x64/domain.cpp): the donated-page interval
tracker, the page donation/reclaim protocol and the IOMMU preparation
logic.  Guest-physical addresses and page counts are modelled as `Nat`
(the C++ code uses `uint64_t`; none of the verified claims exercises
64-bit wrap-around).  The `page_range` helper methods live in a header
that is not part of the sources, so they are modelled from the spec;
everything else is translated from `domain.cpp`.
-/

namespace MicroV

/-- Size of a 4K page (`UV_PAGE_SIZE` from the MicroV headers). -/
def UV_PAGE_SIZE : Nat := 4096

/-- Log2 of the page size (`UV_PAGE_FROM`), used by the shift in the
interval-split arithmetic of `remove_page_from_donated_range`. -/
def UV_PAGE_FROM : Nat := 12

/-- Page-alignment predicate for a guest-physical address. -/
def aligned (n : Nat) : Prop := n % UV_PAGE_SIZE = 0

instance (n : Nat) : Decidable (aligned n) := by
  unfold aligned; infer_instance

/-- Donated-page interval `{start, count}`: `m_page_count` contiguous 4K
pages beginning at guest-physical address `m_page_start`.  Field names
follow the C++ `struct page_range`. -/
structure page_range where
  m_page_start : Nat
  m_page_count : Nat
deriving DecidableEq, Repr

namespace page_range

/-- Modelled from the spec: accessor `page_range::start()` (the header
defining `page_range` is not among the sources). -/
def start (r : page_range) : Nat := r.m_page_start

/-- Modelled from the spec: accessor `page_range::count()`. -/
def count (r : page_range) : Nat := r.m_page_count

/-- Modelled from the spec: `page_range::limit()`, the one-past-the-end
address `start + count * UV_PAGE_SIZE`. -/
def limit (r : page_range) : Nat := r.m_page_start + r.m_page_count * UV_PAGE_SIZE

/-- Modelled from the spec: `page_range::contains(page)`, true iff the
page address falls within the interval. -/
def contains (r : page_range) (page : Nat) : Prop :=
  r.start ≤ page ∧ page < r.limit

instance (r : page_range) (page : Nat) : Decidable (r.contains page) := by
  unfold contains; infer_instance

/-- Modelled from the spec: `page_range::contiguous_below(page)` — this
interval sits directly below `page`, i.e. its top page is adjacent to
`page` (spec 4.2: "if that interval's top page is adjacent to gpa,
extend it upward"). -/
def contiguous_below (r : page_range) (page : Nat) : Prop := r.limit = page

/-- Modelled from the spec: `page_range::contiguous_above(page)` — this
interval starts directly above `page`, i.e. its bottom page is adjacent
to `page` (spec 4.2: "if the next interval's bottom page is adjacent,
extend it downward"). -/
def contiguous_above (r : page_range) (page : Nat) : Prop :=
  r.start = page + UV_PAGE_SIZE

/-- Modelled from the spec: `page_range::top_page(page)` — `page` equals
`start + (count - 1)` pages (spec 3: classification *top*). -/
def top_page (r : page_range) (page : Nat) : Prop :=
  page = r.limit - UV_PAGE_SIZE

/-- Modelled from the spec: `page_range::bottom_page(page)` — `page`
equals the interval start (spec 3: classification *bottom*). -/
def bottom_page (r : page_range) (page : Nat) : Prop := page = r.start

/-- Modelled from the spec: `page_range::middle_page(page)` — `page` is
strictly interior to the interval (spec 3: classification *middle*). -/
def middle_page (r : page_range) (page : Nat) : Prop :=
  r.start < page ∧ page < r.limit - UV_PAGE_SIZE

instance (r : page_range) (page : Nat) : Decidable (r.contiguous_below page) := by
  unfold contiguous_below; infer_instance

instance (r : page_range) (page : Nat) : Decidable (r.contiguous_above page) := by
  unfold contiguous_above; infer_instance

instance (r : page_range) (page : Nat) : Decidable (r.top_page page) := by
  unfold top_page; infer_instance

instance (r : page_range) (page : Nat) : Decidable (r.bottom_page page) := by
  unfold bottom_page; infer_instance

instance (r : page_range) (page : Nat) : Decidable (r.middle_page page) := by
  unfold middle_page; infer_instance

end page_range

/-- A borrower's interval set (`page_range_set`, a `std::set<page_range>`
ordered by start address), modelled as a list sorted by start address. -/
abbrev page_range_set := List page_range

/-- Helper of `domain.cpp`: `extend_page_range_above` increments the
page count of an interval in place. -/
def extend_page_range_above (r : page_range) : page_range :=
  { r with m_page_count := r.m_page_count + 1 }

/-- Helper of `domain.cpp`: `extend_page_range_below` moves the start
down one page and increments the count. -/
def extend_page_range_below (r : page_range) : page_range :=
  { m_page_start := r.m_page_start - UV_PAGE_SIZE,
    m_page_count := r.m_page_count + 1 }

/-- Elements of the set strictly below the `lower_bound` of `page_gpa`
(the `std::set::lower_bound` returns the first element whose start is
not less than the key). -/
def ranges_below (s : page_range_set) (page_gpa : Nat) : page_range_set :=
  s.takeWhile (fun r => decide (r.start < page_gpa))

/-- Elements of the set from the `lower_bound` of `page_gpa` to the end. -/
def ranges_from (s : page_range_set) (page_gpa : Nat) : page_range_set :=
  s.dropWhile (fun r => decide (r.start < page_gpa))

/-- Translation of the static `find_page_range` of `domain.cpp`: locate
the interval containing `page_gpa` via a lower-bound lookup, checking
the lower bound itself and its predecessor. -/
def find_page_range (s : page_range_set) (page_gpa : Nat) : Option page_range :=
  if s.isEmpty then none
  else
    match ranges_from s page_gpa, (ranges_below s page_gpa).getLast? with
    | [], none => none
    | [], some last =>
        if last.contains page_gpa then some last else none
    | r :: _, none =>
        if r.contains page_gpa then some r else none
    | r :: _, some last =>
        if r.contains page_gpa then some r
        else if last.contains page_gpa then some last
        else none

/-- Body of `domain::add_page_to_donated_range` acting on one borrower's
interval set: coalesce `page_gpa` with an adjacent neighbor if possible,
otherwise create a new singleton interval at the sorted position. -/
def add_page_to_range_set (s : page_range_set) (page_gpa : Nat) : page_range_set :=
  if s.isEmpty then [⟨page_gpa, 1⟩]
  else
    let below := ranges_below s page_gpa
    match ranges_from s page_gpa with
    | [] =>
        match below.getLast? with
        | none => [⟨page_gpa, 1⟩]
        | some last =>
            if last.contiguous_below page_gpa then
              below.dropLast ++ [extend_page_range_above last]
            else
              below ++ [⟨page_gpa, 1⟩]
    | r :: rest =>
        if r.contiguous_above page_gpa then
          below ++ extend_page_range_below r :: rest
        else
          match below.getLast? with
          | none => below ++ ⟨page_gpa, 1⟩ :: r :: rest
          | some last =>
              if last.contiguous_below page_gpa then
                below.dropLast ++ extend_page_range_above last :: r :: rest
              else
                below ++ ⟨page_gpa, 1⟩ :: r :: rest

/-- Mutation step of `domain::remove_page_from_donated_range` once the
containing interval `r` has been located at position `pre ++ r :: suf`:
erase a sole page, shrink from the top or bottom, or split a middle
page into a lower and an upper interval. -/
def remove_page_at (pre : page_range_set) (r : page_range) (suf : page_range_set)
    (page_gpa : Nat) : page_range_set :=
  if r.top_page page_gpa then
    if r.count = 1 then pre ++ suf
    else pre ++ { r with m_page_count := r.m_page_count - 1 } :: suf
  else if r.middle_page page_gpa then
    let upper_start := page_gpa + UV_PAGE_SIZE
    let upper_count := (r.limit - upper_start) >>> UV_PAGE_FROM
    let lower_start := r.start
    let lower_count := (page_gpa - lower_start) >>> UV_PAGE_FROM
    pre ++ ⟨lower_start, lower_count⟩ :: ⟨upper_start, upper_count⟩ :: suf
  else if r.bottom_page page_gpa then
    if r.count = 1 then pre ++ suf
    else pre ++ ⟨r.m_page_start + UV_PAGE_SIZE, r.m_page_count - 1⟩ :: suf
  else pre ++ r :: suf

/-- Body of `domain::remove_page_from_donated_range` acting on one
borrower's interval set: find the containing interval with the same
lookup as `find_page_range` (no-op when absent) and apply
`remove_page_at` at its position. -/
def remove_page_from_range_set (s : page_range_set) (page_gpa : Nat) : page_range_set :=
  if s.isEmpty then s
  else
    let below := ranges_below s page_gpa
    match ranges_from s page_gpa, below.getLast? with
    | [], none => s
    | [], some last =>
        if last.contains page_gpa then remove_page_at below.dropLast last [] page_gpa
        else s
    | r :: rest, none =>
        if r.contains page_gpa then remove_page_at [] r rest page_gpa
        else s
    | r :: rest, some last =>
        if r.contains page_gpa then remove_page_at below r rest page_gpa
        else if last.contains page_gpa then
          remove_page_at below.dropLast last (r :: rest) page_gpa
        else s

/-- Well-formedness of a borrower's interval set, as maintained by the
donation path: intervals are sorted by start and pairwise disjoint
(each interval ends at or before the next one starts), every interval
holds at least one page, and every start is page-aligned. -/
def range_set_wf (s : page_range_set) : Prop :=
  s.Pairwise (fun r r' => r.limit ≤ r'.start) ∧
  ∀ r ∈ s, 0 < r.m_page_count ∧ aligned r.m_page_start

instance (s : page_range_set) : Decidable (range_set_wf s) := by
  unfold range_set_wf; infer_instance

/-- A page address is covered by an interval set when some interval of
the set contains it. -/
def covers (s : page_range_set) (q : Nat) : Prop := ∃ r ∈ s, r.contains q

instance (s : page_range_set) (q : Nat) : Decidable (covers s q) := by
  unfold covers; infer_instance

theorem covers_append {s t : page_range_set} {q : Nat} :
    covers (s ++ t) q ↔ covers s q ∨ covers t q := by
  simp [covers, List.mem_append, or_and_right, exists_or]

theorem covers_cons {r : page_range} {s : page_range_set} {q : Nat} :
    covers (r :: s) q ↔ r.contains q ∨ covers s q := by
  simp [covers, List.exists_mem_cons_iff]

theorem covers_nil {q : Nat} : ¬ covers ([] : page_range_set) q := by
  simp [covers]

theorem ranges_below_append_from (s : page_range_set) (p : Nat) :
    ranges_below s p ++ ranges_from s p = s :=
  List.takeWhile_append_dropWhile ..

theorem mem_ranges_below {s : page_range_set} {p : Nat} {r : page_range}
    (h : r ∈ ranges_below s p) : r.start < p := by
  have := List.mem_takeWhile_imp h
  simpa using this

theorem mem_ranges_from {s : page_range_set} {p : Nat}
    (hpw : s.Pairwise (fun r r' => r.limit ≤ r'.start))
    (hcnt : ∀ r ∈ s, 0 < r.m_page_count) :
    ∀ r ∈ ranges_from s p, p ≤ r.start := by
  induction s with
  | nil => simp [ranges_from]
  | cons a t ih =>
    intro r hr
    rw [ranges_from, List.dropWhile_cons] at hr
    by_cases hc : a.start < p
    · simp only [hc, decide_true_eq_true, decide_eq_true_eq, if_true] at hr
      exact ih (List.pairwise_cons.mp hpw).2
        (fun x hx => hcnt x (List.mem_cons_of_mem a hx)) r hr
    · rw [if_neg (by simpa using hc)] at hr
      rcases List.mem_cons.mp hr with rfl | hr
      · omega
      · have h1 := (List.pairwise_cons.mp hpw).1 r hr
        have h2 := hcnt a (by simp)
        simp only [page_range.limit, page_range.start, UV_PAGE_SIZE] at *
        omega

theorem getLast?_decomp {α : Type _} {l : List α} {a : α}
    (h : l.getLast? = some a) : l = l.dropLast ++ [a] := by
  induction l with
  | nil => simp at h
  | cons x t ih =>
    cases t with
    | nil => simp_all
    | cons y u =>
      rw [List.getLast?_cons_cons] at h
      have := ih h
      simp only [List.dropLast_cons_of_ne_nil (by simp : y :: u ≠ []),
        List.cons_append]
      exact congrArg (x :: ·) this

theorem getLast?_mem {α : Type _} {l : List α} {a : α}
    (h : l.getLast? = some a) : a ∈ l := by
  rw [getLast?_decomp h]; simp

theorem mem_of_mem_ranges_below {s : page_range_set} {p : Nat} {r : page_range}
    (h : r ∈ ranges_below s p) : r ∈ s := by
  rw [← ranges_below_append_from s p]
  exact List.mem_append_left _ h

theorem mem_of_mem_ranges_from {s : page_range_set} {p : Nat} {r : page_range}
    (h : r ∈ ranges_from s p) : r ∈ s := by
  rw [← ranges_below_append_from s p]
  exact List.mem_append_right _ h

theorem start_lt_limit {r : page_range} (h : 0 < r.m_page_count) :
    r.start < r.limit := by
  simp only [page_range.start, page_range.limit, UV_PAGE_SIZE]
  omega

/-- Facts about the lower-bound split of a well-formed interval set. -/
theorem split_facts {s : page_range_set} (p : Nat) (hwf : range_set_wf s) :
    (∀ r ∈ ranges_below s p, r.start < p) ∧
    (∀ r ∈ ranges_from s p, p ≤ r.start) ∧
    (∀ a ∈ ranges_below s p, ∀ b ∈ ranges_from s p, a.limit ≤ b.start) ∧
    (ranges_below s p).Pairwise (fun r r' => r.limit ≤ r'.start) ∧
    (ranges_from s p).Pairwise (fun r r' => r.limit ≤ r'.start) := by
  obtain ⟨hpw, hdata⟩ := hwf
  have hsplit : List.Pairwise (fun r r' => r.limit ≤ r'.start)
      (ranges_below s p ++ ranges_from s p) := by
    rw [ranges_below_append_from]; exact hpw
  obtain ⟨PB, PF, FX⟩ := List.pairwise_append.mp hsplit
  refine ⟨fun r hr => mem_ranges_below hr,
    mem_ranges_from hpw (fun r hr => (hdata r hr).1), FX, PB, PF⟩

theorem find_page_range_sound {s : page_range_set} {p : Nat} {r : page_range}
    (h : find_page_range s p = some r) : r ∈ s ∧ r.contains p := by
  by_cases hs : s.isEmpty
  · simp [find_page_range, hs] at h
  rcases hrf : ranges_from s p with _ | ⟨r0, rest⟩ <;>
    rcases hgl : (ranges_below s p).getLast? with _ | last <;>
    simp only [find_page_range, hs, hrf, hgl, Bool.false_eq_true, if_false] at h
  · exact absurd h (by simp)
  · by_cases hc : last.contains p
    · rw [if_pos hc] at h
      obtain rfl : last = r := by simpa using h
      exact ⟨mem_of_mem_ranges_below (getLast?_mem hgl), hc⟩
    · rw [if_neg hc] at h
      exact absurd h (by simp)
  · by_cases hc : r0.contains p
    · rw [if_pos hc] at h
      obtain rfl : r0 = r := by simpa using h
      exact ⟨mem_of_mem_ranges_from (by rw [hrf]; simp), hc⟩
    · rw [if_neg hc] at h
      exact absurd h (by simp)
  · by_cases hc : r0.contains p
    · rw [if_pos hc] at h
      obtain rfl : r0 = r := by simpa using h
      exact ⟨mem_of_mem_ranges_from (by rw [hrf]; simp), hc⟩
    · rw [if_neg hc] at h
      by_cases hc2 : last.contains p
      · rw [if_pos hc2] at h
        obtain rfl : last = r := by simpa using h
        exact ⟨mem_of_mem_ranges_below (getLast?_mem hgl), hc2⟩
      · rw [if_neg hc2] at h
        exact absurd h (by simp)

theorem find_page_range_complete {s : page_range_set} {p : Nat}
    (hwf : range_set_wf s) (h : find_page_range s p = none) :
    ∀ r ∈ s, ¬ r.contains p := by
  obtain ⟨F1, F2, FX, PB, PF⟩ := split_facts p hwf
  have hcnt : ∀ r ∈ s, 0 < r.m_page_count := fun r hr => (hwf.2 r hr).1
  intro r hr hcont
  by_cases hs : s.isEmpty
  · rw [List.isEmpty_iff] at hs; subst hs; simp at hr
  have hmem : r ∈ ranges_below s p ++ ranges_from s p := by
    rw [ranges_below_append_from]; exact hr
  rcases hrf : ranges_from s p with _ | ⟨r0, rest⟩ <;>
    rcases hgl : (ranges_below s p).getLast? with _ | last <;>
    simp only [find_page_range, hs, hrf, hgl, Bool.false_eq_true, if_false] at h
  · rw [List.getLast?_eq_none_iff] at hgl
    rw [hrf, hgl] at hmem
    simp at hmem
  · have hlc : ¬ last.contains p := by
      by_cases hc : last.contains p
      · rw [if_pos hc] at h; exact absurd h (by simp)
      · exact hc
    rw [hrf, List.append_nil] at hmem
    have hdec := getLast?_decomp hgl
    rw [hdec] at hmem
    rcases List.mem_append.mp hmem with hpre | hlast
    · have hRlast : r.limit ≤ last.start := by
        have := PB
        rw [hdec] at this
        exact (List.pairwise_append.mp this).2.2 r hpre last (by simp)
      have := F1 last (getLast?_mem hgl)
      obtain ⟨hc1, hc2⟩ := hcont
      omega
    · obtain rfl : r = last := by simpa using hlast
      exact hlc hcont
  · have hrc : ¬ r0.contains p := by
      by_cases hc : r0.contains p
      · rw [if_pos hc] at h; exact absurd h (by simp)
      · exact hc
    rw [List.getLast?_eq_none_iff] at hgl
    rw [hrf, hgl, List.nil_append] at hmem
    rcases List.mem_cons.mp hmem with rfl | hrest
    · exact hrc hcont
    · have hR : r0.limit ≤ r.start := by
        have := PF; rw [hrf] at this
        exact (List.pairwise_cons.mp this).1 r hrest
      have h2 := F2 r0 (by rw [hrf]; simp)
      have h3 := start_lt_limit (hcnt r0 (mem_of_mem_ranges_from (by rw [hrf]; simp)))
      obtain ⟨hc1, hc2⟩ := hcont
      omega
  · have hrc : ¬ r0.contains p := by
      by_cases hc : r0.contains p
      · rw [if_pos hc] at h; exact absurd h (by simp)
      · exact hc
    rw [if_neg hrc] at h
    have hlc : ¬ last.contains p := by
      by_cases hc : last.contains p
      · rw [if_pos hc] at h; exact absurd h (by simp)
      · exact hc
    rw [hrf] at hmem
    rcases List.mem_append.mp hmem with hbel | hfr
    · have hdec := getLast?_decomp hgl
      rw [hdec] at hbel
      rcases List.mem_append.mp hbel with hpre | hlast
      · have hRlast : r.limit ≤ last.start := by
          have := PB
          rw [hdec] at this
          exact (List.pairwise_append.mp this).2.2 r hpre last (by simp)
        have := F1 last (getLast?_mem hgl)
        obtain ⟨hc1, hc2⟩ := hcont
        omega
      · obtain rfl : r = last := by simpa using hlast
        exact hlc hcont
    · rcases List.mem_cons.mp hfr with rfl | hrest
      · exact hrc hcont
      · have hR : r0.limit ≤ r.start := by
          have := PF; rw [hrf] at this
          exact (List.pairwise_cons.mp this).1 r hrest
        have h2 := F2 r0 (by rw [hrf]; simp)
        have h3 := start_lt_limit (hcnt r0 (mem_of_mem_ranges_from (by rw [hrf]; simp)))
        obtain ⟨hc1, hc2⟩ := hcont
        omega

theorem find_page_range_isSome_iff {s : page_range_set} {p : Nat}
    (hwf : range_set_wf s) :
    (find_page_range s p).isSome = true ↔ covers s p := by
  constructor
  · intro h
    rw [Option.isSome_iff_exists] at h
    obtain ⟨r, hr⟩ := h
    obtain ⟨hm, hc⟩ := find_page_range_sound hr
    exact ⟨r, hm, hc⟩
  · intro hc
    rcases hf : find_page_range s p with _ | r
    · obtain ⟨r, hm, hcont⟩ := hc
      exact absurd hcont (find_page_range_complete hwf hf r hm)
    · simp

theorem remove_page_cases {s : page_range_set} (p : Nat) (hwf : range_set_wf s) :
    ((∀ r ∈ s, ¬ r.contains p) ∧ remove_page_from_range_set s p = s) ∨
    (∃ pre r suf, s = pre ++ r :: suf ∧ r.contains p ∧
      remove_page_from_range_set s p = remove_page_at pre r suf p) := by
  by_cases hs : s.isEmpty
  · left
    rw [List.isEmpty_iff] at hs; subst hs
    exact ⟨by simp, by simp [remove_page_from_range_set]⟩
  rcases hrf : ranges_from s p with _ | ⟨r0, rest⟩ <;>
    rcases hgl : (ranges_below s p).getLast? with _ | last
  · exfalso
    rw [List.getLast?_eq_none_iff] at hgl
    have := ranges_below_append_from s p
    rw [hrf, hgl] at this
    simp only [List.append_nil] at this
    rw [← this] at hs
    simp at hs
  · have hre : remove_page_from_range_set s p =
        (if last.contains p then
          remove_page_at (ranges_below s p).dropLast last [] p else s) := by
      simp only [remove_page_from_range_set, hs, Bool.false_eq_true, if_false, hrf, hgl]
    by_cases hc : last.contains p
    · right
      refine ⟨(ranges_below s p).dropLast, last, [], ?_, hc, by rw [hre, if_pos hc]⟩
      have hbf := ranges_below_append_from s p
      rw [hrf, List.append_nil] at hbf
      have h2 : s = ranges_below s p := hbf.symm
      rw [getLast?_decomp hgl] at h2
      exact h2
    · left
      have hfind : find_page_range s p = none := by
        simp only [find_page_range, hs, Bool.false_eq_true, if_false, hrf, hgl,
          if_neg hc]
      exact ⟨find_page_range_complete hwf hfind, by rw [hre, if_neg hc]⟩
  · have hre : remove_page_from_range_set s p =
        (if r0.contains p then remove_page_at [] r0 rest p else s) := by
      simp only [remove_page_from_range_set, hs, Bool.false_eq_true, if_false, hrf, hgl]
    by_cases hc : r0.contains p
    · right
      refine ⟨[], r0, rest, ?_, hc, by rw [hre, if_pos hc]⟩
      rw [List.getLast?_eq_none_iff] at hgl
      have := ranges_below_append_from s p
      rw [hrf, hgl, List.nil_append] at this
      simp [← this]
    · left
      have hfind : find_page_range s p = none := by
        simp only [find_page_range, hs, Bool.false_eq_true, if_false, hrf, hgl,
          if_neg hc]
      exact ⟨find_page_range_complete hwf hfind, by rw [hre, if_neg hc]⟩
  · have hre : remove_page_from_range_set s p =
        (if r0.contains p then remove_page_at (ranges_below s p) r0 rest p
         else if last.contains p then
           remove_page_at (ranges_below s p).dropLast last (r0 :: rest) p
         else s) := by
      simp only [remove_page_from_range_set, hs, Bool.false_eq_true, if_false, hrf, hgl]
    by_cases hc : r0.contains p
    · right
      refine ⟨ranges_below s p, r0, rest, ?_, hc, by rw [hre, if_pos hc]⟩
      have := ranges_below_append_from s p
      rw [hrf] at this
      exact this.symm
    · by_cases hc2 : last.contains p
      · right
        refine ⟨(ranges_below s p).dropLast, last, r0 :: rest, ?_, hc2,
          by rw [hre, if_neg hc, if_pos hc2]⟩
        have hbf := ranges_below_append_from s p
        rw [hrf] at hbf
        have h2 : s = ranges_below s p ++ r0 :: rest := hbf.symm
        rw [getLast?_decomp hgl, List.append_assoc, List.singleton_append] at h2
        exact h2
      · left
        have hfind : find_page_range s p = none := by
          simp only [find_page_range, hs, Bool.false_eq_true, if_false, hrf, hgl,
            if_neg hc, if_neg hc2]
        exact ⟨find_page_range_complete hwf hfind,
          by rw [hre, if_neg hc, if_neg hc2]⟩

theorem covers_nil_iff {q : Nat} : covers ([] : page_range_set) q ↔ False := by
  simp [covers]

theorem covers_singleton {x : page_range} {q : Nat} :
    covers [x] q ↔ x.contains q := by
  simp [covers]

theorem limit_eq (r : page_range) :
    r.limit = r.m_page_start + r.m_page_count * 4096 := by
  simp [page_range.limit, UV_PAGE_SIZE]

theorem shiftRight_page (x : Nat) : x >>> 12 = x / 4096 := by
  rw [Nat.shiftRight_eq_div_pow]

/-- Replacing the interval `r` by a block `mid` of intervals that all
sit inside `[r.start, r.limit]` preserves sortedness/disjointness. -/
theorem pairwise_replace (mid : page_range_set) {pre suf : page_range_set} {r : page_range}
    (hpw : (pre ++ r :: suf).Pairwise (fun x y => x.limit ≤ y.start))
    (hmid : mid.Pairwise (fun x y => x.limit ≤ y.start))
    (hms : ∀ m ∈ mid, r.start ≤ m.start ∧ m.limit ≤ r.limit) :
    (pre ++ (mid ++ suf)).Pairwise (fun x y => x.limit ≤ y.start) := by
  obtain ⟨Ppre, Prs, Hx⟩ := List.pairwise_append.mp hpw
  obtain ⟨Hrs, Psuf⟩ := List.pairwise_cons.mp Prs
  apply List.pairwise_append.mpr
  refine ⟨Ppre, List.pairwise_append.mpr ⟨hmid, Psuf, ?_⟩, ?_⟩
  · intro m hm b hb
    have hm2 := (hms m hm).2
    have hb2 := Hrs b hb
    omega
  · intro a ha b hb
    rcases List.mem_append.mp hb with hm | hsufm
    · have h1 := Hx a ha r (by simp)
      have h2 := (hms b hm).1
      omega
    · exact Hx a ha b (by simp [hsufm])

theorem data_replace (mid : page_range_set) {pre suf : page_range_set} {r : page_range}
    (hdata : ∀ x ∈ pre ++ r :: suf, 0 < x.m_page_count ∧ aligned x.m_page_start)
    (hmid : ∀ m ∈ mid, 0 < m.m_page_count ∧ aligned m.m_page_start) :
    ∀ x ∈ pre ++ (mid ++ suf), 0 < x.m_page_count ∧ aligned x.m_page_start := by
  intro x hx
  rcases List.mem_append.mp hx with hp | hx2
  · exact hdata x (List.mem_append_left _ hp)
  rcases List.mem_append.mp hx2 with hm | hs
  · exact hmid x hm
  · exact hdata x (List.mem_append_right _ (List.mem_cons_of_mem r hs))

theorem start_mk (a c : Nat) : (⟨a, c⟩ : page_range).start = a := rfl

theorem limit_mk (a c : Nat) : (⟨a, c⟩ : page_range).limit = a + c * 4096 := by
  simp [limit_eq]

theorem contains_mk (a c q : Nat) :
    (⟨a, c⟩ : page_range).contains q ↔ a ≤ q ∧ q < a + c * 4096 := by
  simp [page_range.contains, page_range.start, limit_eq]

theorem remove_page_at_spec {pre suf : page_range_set} {r : page_range} {p : Nat}
    (hwf : range_set_wf (pre ++ r :: suf)) (hal : aligned p) (hc : r.contains p) :
    range_set_wf (remove_page_at pre r suf p) ∧
    ∀ q, covers (remove_page_at pre r suf p) q ↔
      (covers (pre ++ r :: suf) q ∧ ¬ (p ≤ q ∧ q < p + UV_PAGE_SIZE)) := by
  obtain ⟨hpw, hdata⟩ := hwf
  have hr_data := hdata r (List.mem_append_right _ (by simp))
  have hcnt : 0 < r.m_page_count := hr_data.1
  have ha_al : r.m_page_start % 4096 = 0 := by
    simpa [aligned, UV_PAGE_SIZE] using hr_data.2
  have hp_al : p % 4096 = 0 := by simpa [aligned, UV_PAGE_SIZE] using hal
  have hstart : r.start = r.m_page_start := rfl
  have hlimit := limit_eq r
  obtain ⟨hcp1, hcp2⟩ := hc
  rw [hstart] at hcp1
  rw [hlimit] at hcp2
  obtain ⟨Ppre, Prs, Hx⟩ := List.pairwise_append.mp hpw
  obtain ⟨Hrs, Psuf⟩ := List.pairwise_cons.mp Prs
  have hpre_r : ∀ a ∈ pre, a.limit ≤ r.start := fun a ha => Hx a ha r (by simp)
  have hpre_no : ∀ q, p ≤ q → ¬ covers pre q := by
    rintro q hq ⟨a, ha, hqa⟩
    have h1 := hpre_r a ha
    have h2 := hqa.2
    rw [hstart] at h1
    omega
  have hsuf_no : ∀ q, q < p + UV_PAGE_SIZE → ¬ covers suf q := by
    rintro q hq ⟨b, hb, hqb⟩
    have h1 := Hrs b hb
    have h2 := hqb.1
    rw [limit_eq r] at h1
    simp only [UV_PAGE_SIZE] at hq
    omega
  by_cases h1 : r.top_page p
  · have h1e : p = r.m_page_start + r.m_page_count * 4096 - 4096 := by
      simpa [page_range.top_page, limit_eq, UV_PAGE_SIZE] using h1
    by_cases hc1 : r.count = 1
    · have hc1e : r.m_page_count = 1 := by simpa [page_range.count] using hc1
      have hres : remove_page_at pre r suf p = pre ++ ([] ++ suf) := by
        unfold remove_page_at
        rw [if_pos h1, if_pos hc1]
        rfl
      rw [hres]
      refine ⟨⟨pairwise_replace [] hpw (by simp) (by simp),
        data_replace [] hdata (by simp)⟩, ?_⟩
      intro q
      simp only [List.nil_append, covers_append, covers_cons]
      constructor
      · rintro (h | h)
        · exact ⟨Or.inl h, fun hq => hpre_no q hq.1 h⟩
        · exact ⟨Or.inr (Or.inr h), fun hq => hsuf_no q hq.2 h⟩
      · rintro ⟨h | h | h, hnq⟩
        · exact Or.inl h
        · exfalso
          obtain ⟨hq1, hq2⟩ := h
          rw [hstart] at hq1
          rw [hlimit] at hq2
          simp only [UV_PAGE_SIZE] at hnq
          omega
        · exact Or.inr h
    · have hc1e : r.m_page_count ≠ 1 := by simpa [page_range.count] using hc1
      have hres : remove_page_at pre r suf p =
          pre ++ (⟨r.m_page_start, r.m_page_count - 1⟩ :: suf) := by
        unfold remove_page_at
        rw [if_pos h1, if_neg hc1]
      rw [hres]
      constructor
      · refine ⟨pairwise_replace [⟨r.m_page_start, r.m_page_count - 1⟩] hpw
          (by simp) ?_, data_replace [⟨r.m_page_start, r.m_page_count - 1⟩] hdata ?_⟩
        · intro m hm
          rw [List.mem_singleton] at hm
          subst hm
          simp only [page_range.start, page_range.limit, UV_PAGE_SIZE]
          omega
        · intro m hm
          rw [List.mem_singleton] at hm
          subst hm
          simp only [aligned, UV_PAGE_SIZE]
          exact ⟨by omega, by omega⟩
      · intro q
        simp only [covers_append, covers_cons, page_range.contains,
          page_range.start, page_range.limit, UV_PAGE_SIZE]
        constructor
        · rintro (h | h | h)
          · exact ⟨Or.inl h, fun hq => hpre_no q hq.1 h⟩
          · exact ⟨Or.inr (Or.inl ⟨by omega, by omega⟩), by omega⟩
          · exact ⟨Or.inr (Or.inr h), fun hq => hsuf_no q hq.2 h⟩
        · rintro ⟨h | h | h, hnq⟩
          · exact Or.inl h
          · obtain ⟨hq1, hq2⟩ := h
            exact Or.inr (Or.inl ⟨by omega, by omega⟩)
          · exact Or.inr (Or.inr h)
  · by_cases h2 : r.middle_page p
    · have h2e : r.m_page_start < p ∧
          p < r.m_page_start + r.m_page_count * 4096 - 4096 := by
        simpa [page_range.middle_page, page_range.start, limit_eq, UV_PAGE_SIZE] using h2
      have hres : remove_page_at pre r suf p =
          pre ++ (⟨r.start, (p - r.start) >>> UV_PAGE_FROM⟩ ::
            ⟨p + UV_PAGE_SIZE, (r.limit - (p + UV_PAGE_SIZE)) >>> UV_PAGE_FROM⟩ :: suf) := by
        unfold remove_page_at
        rw [if_neg h1, if_pos h2]
      rw [hres]
      constructor
      · refine ⟨pairwise_replace
          [⟨r.start, (p - r.start) >>> UV_PAGE_FROM⟩,
           ⟨p + UV_PAGE_SIZE, (r.limit - (p + UV_PAGE_SIZE)) >>> UV_PAGE_FROM⟩]
          hpw ?_ ?_, data_replace
          [⟨r.start, (p - r.start) >>> UV_PAGE_FROM⟩,
           ⟨p + UV_PAGE_SIZE, (r.limit - (p + UV_PAGE_SIZE)) >>> UV_PAGE_FROM⟩] hdata ?_⟩
        · refine List.pairwise_cons.mpr ⟨?_, by simp⟩
          intro m hm
          rw [List.mem_singleton] at hm
          subst hm
          simp only [page_range.start, page_range.limit, UV_PAGE_SIZE,
            UV_PAGE_FROM, shiftRight_page]
          omega
        · intro m hm
          rcases List.mem_cons.mp hm with rfl | hm2
          · simp only [page_range.start, page_range.limit, UV_PAGE_SIZE,
              UV_PAGE_FROM, shiftRight_page]
            omega
          · rw [List.mem_singleton] at hm2
            subst hm2
            simp only [page_range.start, page_range.limit, UV_PAGE_SIZE,
              UV_PAGE_FROM, shiftRight_page]
            omega
        · intro m hm
          rcases List.mem_cons.mp hm with rfl | hm2
          · simp only [aligned, page_range.start, UV_PAGE_SIZE, UV_PAGE_FROM,
              shiftRight_page]
            exact ⟨by omega, by omega⟩
          · rw [List.mem_singleton] at hm2
            subst hm2
            simp only [aligned, page_range.limit, UV_PAGE_SIZE, UV_PAGE_FROM,
              shiftRight_page]
            exact ⟨by omega, by omega⟩
      · intro q
        simp only [covers_append, covers_cons, page_range.contains,
          page_range.start, page_range.limit, UV_PAGE_SIZE, UV_PAGE_FROM,
          shiftRight_page]
        constructor
        · rintro (h | h | h | h)
          · exact ⟨Or.inl h, fun hq => hpre_no q hq.1 h⟩
          · exact ⟨Or.inr (Or.inl ⟨by omega, by omega⟩), by omega⟩
          · exact ⟨Or.inr (Or.inl ⟨by omega, by omega⟩), by omega⟩
          · exact ⟨Or.inr (Or.inr h), fun hq => hsuf_no q hq.2 h⟩
        · rintro ⟨h | h | h, hnq⟩
          · exact Or.inl h
          · obtain ⟨hq1, hq2⟩ := h
            by_cases hqp : q < p
            · exact Or.inr (Or.inl ⟨by omega, by omega⟩)
            · exact Or.inr (Or.inr (Or.inl ⟨by omega, by omega⟩))
          · exact Or.inr (Or.inr (Or.inr h))
    · by_cases h3 : r.bottom_page p
      · have h3e : p = r.m_page_start := by
          simpa [page_range.bottom_page, page_range.start] using h3
        have h1e : ¬ p = r.m_page_start + r.m_page_count * 4096 - 4096 := by
          simpa [page_range.top_page, limit_eq, UV_PAGE_SIZE] using h1
        by_cases hc1 : r.count = 1
        · exfalso
          have hc1e : r.m_page_count = 1 := by simpa [page_range.count] using hc1
          omega
        · have hc1e : r.m_page_count ≠ 1 := by simpa [page_range.count] using hc1
          have hres : remove_page_at pre r suf p =
              pre ++ (⟨r.m_page_start + UV_PAGE_SIZE, r.m_page_count - 1⟩ :: suf) := by
            unfold remove_page_at
            rw [if_neg h1, if_neg h2, if_pos h3, if_neg hc1]
          rw [hres]
          constructor
          · refine ⟨pairwise_replace [⟨r.m_page_start + UV_PAGE_SIZE, r.m_page_count - 1⟩]
              hpw (by simp) ?_,
              data_replace [⟨r.m_page_start + UV_PAGE_SIZE, r.m_page_count - 1⟩] hdata ?_⟩
            · intro m hm
              rw [List.mem_singleton] at hm
              subst hm
              simp only [page_range.start, page_range.limit, UV_PAGE_SIZE]
              omega
            · intro m hm
              rw [List.mem_singleton] at hm
              subst hm
              simp only [aligned, UV_PAGE_SIZE]
              exact ⟨by omega, by omega⟩
          · intro q
            simp only [covers_append, covers_cons, page_range.contains,
              page_range.start, page_range.limit, UV_PAGE_SIZE]
            constructor
            · rintro (h | h | h)
              · exact ⟨Or.inl h, fun hq => hpre_no q hq.1 h⟩
              · exact ⟨Or.inr (Or.inl ⟨by omega, by omega⟩), by omega⟩
              · exact ⟨Or.inr (Or.inr h), fun hq => hsuf_no q hq.2 h⟩
            · rintro ⟨h | h | h, hnq⟩
              · exact Or.inl h
              · obtain ⟨hq1, hq2⟩ := h
                exact Or.inr (Or.inl ⟨by omega, by omega⟩)
              · exact Or.inr (Or.inr h)
      · exfalso
        have h1e : ¬ p = r.m_page_start + r.m_page_count * 4096 - 4096 := by
          simpa [page_range.top_page, limit_eq, UV_PAGE_SIZE] using h1
        have h2e : ¬ (r.m_page_start < p ∧
            p < r.m_page_start + r.m_page_count * 4096 - 4096) := by
          simpa [page_range.middle_page, page_range.start, limit_eq, UV_PAGE_SIZE] using h2
        have h3e : ¬ p = r.m_page_start := by
          simpa [page_range.bottom_page, page_range.start] using h3
        omega

/-- Removal of an aligned page from a well-formed interval set preserves
well-formedness and removes exactly the pages of the 4K page at `p`. -/
theorem remove_page_spec {s : page_range_set} {p : Nat}
    (hwf : range_set_wf s) (hal : aligned p) :
    range_set_wf (remove_page_from_range_set s p) ∧
    ∀ q, covers (remove_page_from_range_set s p) q ↔
      (covers s q ∧ ¬ (p ≤ q ∧ q < p + UV_PAGE_SIZE)) := by
  rcases remove_page_cases p hwf with ⟨hnone, heq⟩ | ⟨pre, r, suf, hdec, hcont, heq⟩
  · rw [heq]
    refine ⟨hwf, fun q => ?_⟩
    constructor
    · intro hcov
      refine ⟨hcov, ?_⟩
      rintro ⟨hq1, hq2⟩
      obtain ⟨a, ha, hqa⟩ := hcov
      have hdat := hwf.2 a ha
      have ha_al : a.m_page_start % 4096 = 0 := by
        simpa [aligned, UV_PAGE_SIZE] using hdat.2
      have hp_al : p % 4096 = 0 := by simpa [aligned, UV_PAGE_SIZE] using hal
      apply hnone a ha
      obtain ⟨h1, h2⟩ := hqa
      simp only [page_range.contains, page_range.start, page_range.limit,
        UV_PAGE_SIZE] at h1 h2 ⊢
      simp only [UV_PAGE_SIZE] at hq2
      exact ⟨by omega, by omega⟩
    · rintro ⟨h, _⟩
      exact h
  · subst hdec
    rw [heq]
    exact remove_page_at_spec hwf hal hcont

theorem pairwise_snoc {l : List page_range} {x : page_range}
    (hl : l.Pairwise (fun a b => a.limit ≤ b.start))
    (hx : ∀ a ∈ l, a.limit ≤ x.start) :
    (l ++ [x]).Pairwise (fun a b => a.limit ≤ b.start) := by
  apply List.pairwise_append.mpr
  refine ⟨hl, by simp, ?_⟩
  intro a ha b hb
  rw [List.mem_singleton] at hb
  subst hb
  exact hx a ha

/-- Insertion of a fresh aligned page into a well-formed interval set
preserves well-formedness and adds exactly the pages of the 4K page at
`p`. -/
theorem add_page_spec {s : page_range_set} {p : Nat}
    (hwf : range_set_wf s) (hal : aligned p) (hfresh : ∀ r ∈ s, ¬ r.contains p) :
    range_set_wf (add_page_to_range_set s p) ∧
    ∀ q, covers (add_page_to_range_set s p) q ↔
      (covers s q ∨ (p ≤ q ∧ q < p + UV_PAGE_SIZE)) := by
  obtain ⟨F1, F2, FX, PB, PF⟩ := split_facts p hwf
  have hseq : s = ranges_below s p ++ ranges_from s p :=
    (ranges_below_append_from s p).symm
  have hp_al : p % 4096 = 0 := by simpa [aligned, UV_PAGE_SIZE] using hal
  have hBlim : ∀ a ∈ ranges_below s p, a.m_page_start + a.m_page_count * 4096 ≤ p := by
    intro a ha
    have h1 := F1 a ha
    have h2 := hfresh a (mem_of_mem_ranges_below ha)
    simp only [page_range.contains, page_range.start, limit_eq, not_and, not_lt] at h2
    simp only [page_range.start] at h1
    exact h2 (by omega)
  have hAstart : ∀ b ∈ ranges_from s p, p + 4096 ≤ b.m_page_start := by
    intro b hb
    have h1 := F2 b hb
    have h2 := hfresh b (mem_of_mem_ranges_from hb)
    have h3 := hwf.2 b (mem_of_mem_ranges_from hb)
    have hb_al : b.m_page_start % 4096 = 0 := by
      simpa [aligned, UV_PAGE_SIZE] using h3.2
    have h4 := h3.1
    simp only [page_range.contains, page_range.start, limit_eq, not_and, not_lt] at h2
    simp only [page_range.start] at h1
    by_cases hbs : b.m_page_start ≤ p
    · have h5 := h2 hbs
      omega
    · omega
  have hdataB : ∀ a ∈ ranges_below s p, 0 < a.m_page_count ∧ aligned a.m_page_start :=
    fun a ha => hwf.2 a (mem_of_mem_ranges_below ha)
  have hdataA : ∀ b ∈ ranges_from s p, 0 < b.m_page_count ∧ aligned b.m_page_start :=
    fun b hb => hwf.2 b (mem_of_mem_ranges_from hb)
  by_cases hs : s.isEmpty
  · rw [List.isEmpty_iff] at hs
    subst hs
    have hres : add_page_to_range_set [] p = [⟨p, 1⟩] := rfl
    rw [hres]
    refine ⟨⟨by simp, ?_⟩, ?_⟩
    · intro r hr
      rw [List.mem_singleton] at hr
      subst hr
      exact ⟨by norm_num, hal⟩
    · intro q
      simp only [covers_singleton, covers_nil_iff, false_or,
        page_range.contains, page_range.start, limit_eq, UV_PAGE_SIZE]
  rcases hrf : ranges_from s p with _ | ⟨r0, rest⟩
  · rcases hgl : (ranges_below s p).getLast? with _ | last
    · exfalso
      rw [List.getLast?_eq_none_iff] at hgl
      rw [hrf, hgl] at hseq
      simp only [List.append_nil] at hseq
      rw [hseq] at hs
      simp at hs
    · obtain ⟨B, hB⟩ : ∃ B, ranges_below s p = B ++ [last] :=
        ⟨_, getLast?_decomp hgl⟩
      rw [hrf, List.append_nil, hB] at hseq
      rw [hB] at PB hBlim
      obtain ⟨PBpre, _, PBcross⟩ := List.pairwise_append.mp PB
      have hlast_lim : last.m_page_start + last.m_page_count * 4096 ≤ p :=
        hBlim last (by simp)
      have hlast_dat : 0 < last.m_page_count ∧ aligned last.m_page_start :=
        hdataB last (by rw [hB]; simp)
      have hlast_al : last.m_page_start % 4096 = 0 := by
        simpa [aligned, UV_PAGE_SIZE] using hlast_dat.2
      have hpre_lim : ∀ a ∈ B, a.limit ≤ last.start :=
        fun a ha => PBcross a ha last (by simp)
      by_cases hcb : last.contiguous_below p
      · have hcbe : last.m_page_start + last.m_page_count * 4096 = p := by
          simpa [page_range.contiguous_below, limit_eq] using hcb
        have hres : add_page_to_range_set s p =
            (ranges_below s p).dropLast ++ [extend_page_range_above last] := by
          simp only [add_page_to_range_set, hs, Bool.false_eq_true, if_false,
            hrf, hgl, if_pos hcb]
        rw [hres, hB, List.dropLast_concat]
        constructor
        · refine ⟨pairwise_snoc PBpre ?_, ?_⟩
          · intro a ha
            have h1 := hpre_lim a ha
            simp only [extend_page_range_above, page_range.start] at h1 ⊢
            omega
          · intro x hx
            rcases List.mem_append.mp hx with hx1 | hx2
            · exact hdataB x (by rw [hB]; exact List.mem_append_left _ hx1)
            · rw [List.mem_singleton] at hx2
              subst hx2
              refine ⟨by simp [extend_page_range_above], ?_⟩
              simpa [extend_page_range_above, aligned, UV_PAGE_SIZE] using hlast_al
        · intro q
          conv_rhs => rw [hseq]
          simp only [covers_append, covers_singleton, extend_page_range_above,
            page_range.contains, page_range.start, limit_eq, UV_PAGE_SIZE,
            or_assoc]
          constructor
          · rintro (h | h)
            · exact Or.inl h
            · obtain ⟨h1, h2⟩ := h
              by_cases hqp : q < p
              · exact Or.inr (Or.inl ⟨by omega, by omega⟩)
              · exact Or.inr (Or.inr ⟨by omega, by omega⟩)
          · rintro (h | h | h)
            · exact Or.inl h
            · obtain ⟨h1, h2⟩ := h
              exact Or.inr ⟨by omega, by omega⟩
            · obtain ⟨h1, h2⟩ := h
              exact Or.inr ⟨by omega, by omega⟩
      · have hcbe : last.m_page_start + last.m_page_count * 4096 ≠ p := by
          simpa [page_range.contiguous_below, limit_eq] using hcb
        have hres : add_page_to_range_set s p =
            ranges_below s p ++ [⟨p, 1⟩] := by
          simp only [add_page_to_range_set, hs, Bool.false_eq_true, if_false,
            hrf, hgl, if_neg hcb]
        rw [hres, hB]
        constructor
        · refine ⟨pairwise_snoc PB ?_, ?_⟩
          · intro a ha
            have h1 := hBlim a ha
            simp only [page_range.start, limit_eq] at h1 ⊢
            omega
          · intro x hx
            rcases List.mem_append.mp hx with hx1 | hx2
            · exact hdataB x (by rw [hB]; exact hx1)
            · rw [List.mem_singleton] at hx2
              subst hx2
              exact ⟨by norm_num, hal⟩
        · intro q
          conv_rhs => rw [hseq]
          simp only [covers_append, covers_singleton, page_range.contains,
            page_range.start, limit_eq, UV_PAGE_SIZE, or_assoc]
  · rw [hrf] at PF hAstart hdataA
    have hseq2 : s = ranges_below s p ++ r0 :: rest := hseq.trans (by rw [hrf])
    obtain ⟨PFhead, PFrest⟩ := List.pairwise_cons.mp PF
    have hr0_start : p + 4096 ≤ r0.m_page_start := hAstart r0 (by simp)
    have hr0_dat : 0 < r0.m_page_count ∧ aligned r0.m_page_start := hdataA r0 (by simp)
    have hr0_cnt : 0 < r0.m_page_count := hr0_dat.1
    by_cases hca : r0.contiguous_above p
    · have hcae : r0.m_page_start = p + 4096 := by
        simpa [page_range.contiguous_above, page_range.start, UV_PAGE_SIZE] using hca
      have hres : add_page_to_range_set s p =
          ranges_below s p ++ extend_page_range_below r0 :: rest := by
        simp only [add_page_to_range_set, hs, Bool.false_eq_true, if_false,
          hrf, if_pos hca]
      rw [hres]
      constructor
      · refine ⟨List.pairwise_append.mpr ⟨PB,
          List.pairwise_cons.mpr ⟨?_, PFrest⟩, ?_⟩, ?_⟩
        · intro b hb
          have h1 := PFhead b hb
          simp only [extend_page_range_below, page_range.limit, limit_eq,
            UV_PAGE_SIZE] at h1 ⊢
          omega
        · intro a ha b hb
          rcases List.mem_cons.mp hb with rfl | hb2
          · have h1 := hBlim a ha
            simp only [extend_page_range_below, page_range.start, limit_eq,
              UV_PAGE_SIZE] at h1 ⊢
            omega
          · exact FX a ha b (by rw [hrf]; exact List.mem_cons_of_mem r0 hb2)
        · intro x hx
          rcases List.mem_append.mp hx with hx1 | hx2
          · exact hdataB x hx1
          rcases List.mem_cons.mp hx2 with rfl | hx3
          · refine ⟨by simp [extend_page_range_below], ?_⟩
            simp only [extend_page_range_below, aligned, UV_PAGE_SIZE]
            omega
          · exact hdataA x (List.mem_cons_of_mem r0 hx3)
      · intro q
        conv_rhs => rw [hseq2]
        simp only [covers_append, covers_cons, extend_page_range_below,
          page_range.contains, page_range.start, limit_eq, UV_PAGE_SIZE,
          or_assoc]
        constructor
        · rintro (h | h | h)
          · exact Or.inl h
          · obtain ⟨h1, h2⟩ := h
            by_cases hqp : q < p + 4096
            · exact Or.inr (Or.inr (Or.inr ⟨by omega, by omega⟩))
            · exact Or.inr (Or.inl ⟨by omega, by omega⟩)
          · exact Or.inr (Or.inr (Or.inl h))
        · rintro (h | h | h | h)
          · exact Or.inl h
          · obtain ⟨h1, h2⟩ := h
            exact Or.inr (Or.inl ⟨by omega, by omega⟩)
          · exact Or.inr (Or.inr h)
          · obtain ⟨h1, h2⟩ := h
            exact Or.inr (Or.inl ⟨by omega, by omega⟩)
    · have hcae : r0.m_page_start ≠ p + 4096 := by
        simpa [page_range.contiguous_above, page_range.start, UV_PAGE_SIZE] using hca
      rcases hgl : (ranges_below s p).getLast? with _ | last
      · rw [List.getLast?_eq_none_iff] at hgl
        have hres : add_page_to_range_set s p =
            ranges_below s p ++ ⟨p, 1⟩ :: r0 :: rest := by
          simp only [add_page_to_range_set, hs, Bool.false_eq_true, if_false,
            hrf, if_neg hca, hgl, List.getLast?_nil]
        rw [hgl, List.nil_append] at hseq2
        rw [hres, hgl, List.nil_append]
        constructor
        · refine ⟨List.pairwise_cons.mpr ⟨?_, PF⟩, ?_⟩
          · intro b hb
            rcases List.mem_cons.mp hb with rfl | hb2
            · simp only [page_range.start, limit_eq, UV_PAGE_SIZE]
              omega
            · have h1 := PFhead b hb2
              have h2 := start_lt_limit hr0_cnt
              simp only [page_range.start, page_range.limit, limit_eq,
                UV_PAGE_SIZE] at h1 h2 ⊢
              omega
          · intro x hx
            rcases List.mem_cons.mp hx with rfl | hx2
            · exact ⟨by norm_num, hal⟩
            rcases List.mem_cons.mp hx2 with rfl | hx3
            · exact hr0_dat
            · exact hdataA x (List.mem_cons_of_mem r0 hx3)
        · intro q
          conv_rhs => rw [hseq2]
          simp only [covers_cons, page_range.contains, page_range.start,
            limit_eq, UV_PAGE_SIZE, or_assoc]
          constructor
          · rintro (h | h | h)
            · obtain ⟨h1, h2⟩ := h
              exact Or.inr (Or.inr ⟨by omega, by omega⟩)
            · exact Or.inl h
            · exact Or.inr (Or.inl h)
          · rintro (h | h | h)
            · exact Or.inr (Or.inl h)
            · exact Or.inr (Or.inr h)
            · obtain ⟨h1, h2⟩ := h
              exact Or.inl ⟨by omega, by omega⟩
      · obtain ⟨B, hB⟩ : ∃ B, ranges_below s p = B ++ [last] :=
          ⟨_, getLast?_decomp hgl⟩
        rw [hB] at PB hBlim hseq2
        obtain ⟨PBpre, _, PBcross⟩ := List.pairwise_append.mp PB
        have hlast_lim : last.m_page_start + last.m_page_count * 4096 ≤ p :=
          hBlim last (by simp)
        have hlast_dat : 0 < last.m_page_count ∧ aligned last.m_page_start :=
          hdataB last (by rw [hB]; simp)
        have hlast_al : last.m_page_start % 4096 = 0 := by
          simpa [aligned, UV_PAGE_SIZE] using hlast_dat.2
        have hpre_lim : ∀ a ∈ B, a.limit ≤ last.start :=
          fun a ha => PBcross a ha last (by simp)
        have hpre_p : ∀ a ∈ B, a.limit ≤ p := by
          intro a ha
          have h1 := hpre_lim a ha
          simp only [page_range.start] at h1
          omega
        by_cases hcb : last.contiguous_below p
        · have hcbe : last.m_page_start + last.m_page_count * 4096 = p := by
            simpa [page_range.contiguous_below, limit_eq] using hcb
          have hres : add_page_to_range_set s p =
              (ranges_below s p).dropLast ++
                extend_page_range_above last :: r0 :: rest := by
            simp only [add_page_to_range_set, hs, Bool.false_eq_true, if_false,
              hrf, if_neg hca, hgl, if_pos hcb]
          rw [hres, hB, List.dropLast_concat]
          constructor
          · refine ⟨List.pairwise_append.mpr ⟨PBpre,
              List.pairwise_cons.mpr ⟨?_, PF⟩, ?_⟩, ?_⟩
            · intro b hb
              rcases List.mem_cons.mp hb with rfl | hb2
              · simp only [extend_page_range_above, page_range.start, limit_eq,
                  UV_PAGE_SIZE]
                omega
              · have h1 := PFhead b hb2
                have h2 := start_lt_limit hr0_cnt
                simp only [extend_page_range_above, page_range.start,
                  page_range.limit, limit_eq, UV_PAGE_SIZE] at h1 h2 ⊢
                omega
            · intro a ha b hb
              have hap := hpre_lim a ha
              simp only [page_range.start] at hap
              rcases List.mem_cons.mp hb with rfl | hb2
              · simp only [extend_page_range_above, page_range.start]
                omega
              rcases List.mem_cons.mp hb2 with rfl | hb3
              · simp only [page_range.start]
                omega
              · exact FX a (by rw [hB]; exact List.mem_append_left _ ha) b
                  (by rw [hrf]; exact List.mem_cons_of_mem r0 hb3)
            · intro x hx
              rcases List.mem_append.mp hx with hx1 | hx2
              · exact hdataB x (by rw [hB]; exact List.mem_append_left _ hx1)
              rcases List.mem_cons.mp hx2 with rfl | hx3
              · refine ⟨by simp [extend_page_range_above], ?_⟩
                simpa [extend_page_range_above, aligned, UV_PAGE_SIZE] using hlast_al
              rcases List.mem_cons.mp hx3 with rfl | hx4
              · exact hr0_dat
              · exact hdataA x (List.mem_cons_of_mem r0 hx4)
          · intro q
            conv_rhs => rw [hseq2]
            simp only [covers_append, covers_cons, covers_singleton,
              covers_nil_iff, or_false, false_or, extend_page_range_above,
              page_range.contains, page_range.start, limit_eq, UV_PAGE_SIZE,
              or_assoc]
            constructor
            · rintro (h | h | h | h)
              · exact Or.inl h
              · obtain ⟨h1, h2⟩ := h
                by_cases hqp : q < p
                · exact Or.inr (Or.inl ⟨by omega, by omega⟩)
                · exact Or.inr (Or.inr (Or.inr (Or.inr ⟨by omega, by omega⟩)))
              · exact Or.inr (Or.inr (Or.inl h))
              · exact Or.inr (Or.inr (Or.inr (Or.inl h)))
            · rintro (h | h | h | h | h)
              · exact Or.inl h
              · obtain ⟨h1, h2⟩ := h
                exact Or.inr (Or.inl ⟨by omega, by omega⟩)
              · exact Or.inr (Or.inr (Or.inl h))
              · exact Or.inr (Or.inr (Or.inr h))
              · obtain ⟨h1, h2⟩ := h
                exact Or.inr (Or.inl ⟨by omega, by omega⟩)
        · have hcbe : last.m_page_start + last.m_page_count * 4096 ≠ p := by
            simpa [page_range.contiguous_below, limit_eq] using hcb
          have hres : add_page_to_range_set s p =
              ranges_below s p ++ ⟨p, 1⟩ :: r0 :: rest := by
            simp only [add_page_to_range_set, hs, Bool.false_eq_true, if_false,
              hrf, if_neg hca, hgl, if_neg hcb]
          rw [hres, hB]
          constructor
          · refine ⟨List.pairwise_append.mpr ⟨PB,
              List.pairwise_cons.mpr ⟨?_, PF⟩, ?_⟩, ?_⟩
            · intro b hb
              rcases List.mem_cons.mp hb with rfl | hb2
              · simp only [page_range.start, limit_eq, UV_PAGE_SIZE]
                omega
              · have h1 := PFhead b hb2
                have h2 := start_lt_limit hr0_cnt
                simp only [page_range.start, page_range.limit, limit_eq,
                  UV_PAGE_SIZE] at h1 h2 ⊢
                omega
            · intro a ha b hb
              have hap : a.m_page_start + a.m_page_count * 4096 ≤ p := by
                rcases List.mem_append.mp ha with ha1 | ha2
                · have h1 := hpre_p a ha1
                  simp only [limit_eq] at h1
                  omega
                · rw [List.mem_singleton] at ha2
                  subst ha2
                  omega
              rcases List.mem_cons.mp hb with rfl | hb2
              · simp only [page_range.start, limit_eq]
                omega
              rcases List.mem_cons.mp hb2 with rfl | hb3
              · simp only [page_range.start, limit_eq]
                omega
              · exact FX a (by rw [hB]; exact ha) b
                  (by rw [hrf]; exact List.mem_cons_of_mem r0 hb3)
            · intro x hx
              rcases List.mem_append.mp hx with hx1 | hx2
              · exact hdataB x (by rw [hB]; exact hx1)
              rcases List.mem_cons.mp hx2 with rfl | hx3
              · exact ⟨by norm_num, hal⟩
              rcases List.mem_cons.mp hx3 with rfl | hx4
              · exact hr0_dat
              · exact hdataA x (List.mem_cons_of_mem r0 hx4)
          · intro q
            conv_rhs => rw [hseq2]
            simp only [covers_append, covers_cons, covers_singleton,
              covers_nil_iff, or_false, false_or, page_range.contains,
              page_range.start, limit_eq, UV_PAGE_SIZE, or_assoc]
            constructor
            · rintro (h | h | h | h | h)
              · exact Or.inl h
              · exact Or.inr (Or.inl h)
              · obtain ⟨h1, h2⟩ := h
                exact Or.inr (Or.inr (Or.inr (Or.inr ⟨by omega, by omega⟩)))
              · exact Or.inr (Or.inr (Or.inl h))
              · exact Or.inr (Or.inr (Or.inr (Or.inl h)))
            · rintro (h | h | h | h | h)
              · exact Or.inl h
              · exact Or.inr (Or.inl h)
              · exact Or.inr (Or.inr (Or.inr (Or.inl h)))
              · exact Or.inr (Or.inr (Or.inr (Or.inr h)))
              · obtain ⟨h1, h2⟩ := h
                exact Or.inr (Or.inr (Or.inl ⟨by omega, by omega⟩))

/-- Donated-page tracker `m_donated_page_map`: borrower domain id to
interval set, modelled as an association list with unique keys (the C++
`std::unordered_map`); lookup returns the first matching entry. -/
abbrev donated_page_map := List (Nat × page_range_set)

/-- Lookup of `m_donated_page_map.find(guest_domid)`. -/
def tracker_find (t : donated_page_map) (d : Nat) : Option page_range_set :=
  match t with
  | [] => none
  | kv :: rest => if kv.fst = d then some kv.snd else tracker_find rest d

/-- Update of the borrower's entry (insert when absent), as done through
`m_donated_page_map[guest_domid] = ...` and in-place set mutation. -/
def tracker_set (t : donated_page_map) (d : Nat) (s : page_range_set) :
    donated_page_map :=
  match t with
  | [] => [(d, s)]
  | kv :: rest => if kv.fst = d then (d, s) :: rest else kv :: tracker_set rest d s

/-- Erasure of the borrower's entry (`m_donated_page_map.erase(itr)`);
keys are unique, so filtering is equivalent. -/
def tracker_erase (t : donated_page_map) (d : Nat) : donated_page_map :=
  t.filter (fun kv => decide (kv.fst ≠ d))

/-- Translation of `domain::page_already_donated(guest_domid, page_gpa)`:
whether the page lies in some interval donated to this borrower. -/
def page_already_donated (t : donated_page_map) (guest_domid page_gpa : Nat) : Bool :=
  match tracker_find t guest_domid with
  | none => false
  | some range_set => (find_page_range range_set page_gpa).isSome

/-- Translation of `domain::donated_pages_to_guest`: whether the tracker
holds an entry (possibly with an empty interval set) for this borrower. -/
def donated_pages_to_guest (t : donated_page_map) (guest_domid : Nat) : Bool :=
  (tracker_find t guest_domid).isSome

/-- Translation of `domain::add_page_to_donated_range`: create the
borrower's (empty) interval set when absent, then insert the page with
adjacent-range coalescing. -/
def add_page_to_donated_range (t : donated_page_map) (guest_domid page_gpa : Nat) :
    donated_page_map :=
  match tracker_find t guest_domid with
  | none => tracker_set t guest_domid (add_page_to_range_set [] page_gpa)
  | some range_set => tracker_set t guest_domid (add_page_to_range_set range_set page_gpa)

/-- Translation of `domain::remove_page_from_donated_range`: no-op when
the borrower has no entry; otherwise remove the page from the borrower's
interval set (the entry itself is kept even when the set becomes empty). -/
def remove_page_from_donated_range (t : donated_page_map) (guest_domid page_gpa : Nat) :
    donated_page_map :=
  match tracker_find t guest_domid with
  | none => t
  | some range_set =>
      tracker_set t guest_domid (remove_page_from_range_set range_set page_gpa)

theorem tracker_find_set_self (t : donated_page_map) (d : Nat) (s : page_range_set) :
    tracker_find (tracker_set t d s) d = some s := by
  induction t with
  | nil => simp [tracker_set, tracker_find]
  | cons kv rest ih =>
    by_cases h : kv.fst = d
    · simp [tracker_set, tracker_find, h]
    · simp [tracker_set, tracker_find, h, ih]

theorem tracker_find_set_other (t : donated_page_map) (d : Nat) (s : page_range_set)
    (d0 : Nat) (h : d0 ≠ d) :
    tracker_find (tracker_set t d s) d0 = tracker_find t d0 := by
  have hds : d ≠ d0 := Ne.symm h
  induction t with
  | nil => simp [tracker_set, tracker_find, hds]
  | cons kv rest ih =>
    by_cases hkv : kv.fst = d
    · have hkv0 : kv.fst ≠ d0 := by rw [hkv]; exact hds
      simp [tracker_set, tracker_find, hkv, hds, hkv0]
    · simp [tracker_set, tracker_find, hkv, ih]

theorem tracker_find_erase_self (t : donated_page_map) (d : Nat) :
    tracker_find (tracker_erase t d) d = none := by
  simp only [tracker_erase]
  induction t with
  | nil => rfl
  | cons kv rest ih =>
    rw [List.filter_cons]
    by_cases h : kv.fst = d
    · simpa [h] using ih
    · simpa [h, tracker_find] using ih

theorem tracker_find_erase_other (t : donated_page_map) (d d0 : Nat) (h : d0 ≠ d) :
    tracker_find (tracker_erase t d) d0 = tracker_find t d0 := by
  simp only [tracker_erase]
  induction t with
  | nil => rfl
  | cons kv rest ih =>
    rw [List.filter_cons]
    by_cases hkv : kv.fst = d
    · have hkv0 : kv.fst ≠ d0 := by rw [hkv]; exact Ne.symm h
      simpa [hkv, tracker_find, hkv0, Ne.symm h] using ih
    · by_cases hkv0 : kv.fst = d0
      · simp [hkv, tracker_find, hkv0, h]
      · simpa [hkv, tracker_find, hkv0, h] using ih

/-- EPT permission attribute (`ept::mmap::attr_type`). -/
inductive attr_type where
  | read_only
  | read_write
  | read_write_execute
deriving DecidableEq, Repr

/-- EPT memory type (`ept::mmap::memory_type`). -/
inductive memory_type where
  | write_back
  | write_combining
  | uncacheable
deriving DecidableEq, Repr

/-- One installed translation of the Address-Translation Map: target
host-physical address, page-size exponent (12 for 4K, 21 for 2M), and
attributes. -/
structure EptEntry where
  hpa : Nat
  page_from : Nat
  attr : attr_type
  mtype : memory_type
deriving DecidableEq, Repr

/-- Modelled from the spec: the Address-Translation Map (`ept::mmap`,
not among the sources) as a table from guest-physical address to entry;
an absent key models a not-present translation (spec 4.1: `unmap` marks
the entry not-present). -/
abbrev ept_map := List (Nat × EptEntry)

def ept_lookup (e : ept_map) (gpa : Nat) : Option EptEntry :=
  match e with
  | [] => none
  | kv :: rest => if kv.fst = gpa then some kv.snd else ept_lookup rest gpa

def ept_set (e : ept_map) (gpa : Nat) (ent : EptEntry) : ept_map :=
  match e with
  | [] => [(gpa, ent)]
  | kv :: rest => if kv.fst = gpa then (gpa, ent) :: rest else kv :: ept_set rest gpa ent

/-- Modelled from the spec: `ept::mmap::map_4k` installs or replaces the
4K translation for `gpa` (spec 4.1). -/
def map_4k (e : ept_map) (gpa hpa : Nat) (attr : attr_type) (mtype : memory_type) :
    ept_map :=
  ept_set e gpa ⟨hpa, 12, attr, mtype⟩

/-- Translation of `domain::map_4k_rwe` (write-back is the `map_4k`
default memory type). -/
def map_4k_rwe (e : ept_map) (gpa hpa : Nat) : ept_map :=
  map_4k e gpa hpa attr_type.read_write_execute memory_type.write_back

/-- Modelled from the spec: `ept::mmap::unmap(gpa)` marks the
translation not present (spec 4.1); modelled by dropping the entry. -/
def ept_unmap (e : ept_map) (gpa : Nat) : ept_map :=
  e.filter (fun kv => decide (kv.fst ≠ gpa))

/-- Modelled from the spec: `identity_map_convert_2m_to_4k` (spec 4.3
step 4) demotes the 2M identity mapping at `gpa_2m` into 512 4K identity
mappings, preserving the pages of the original large mapping. -/
def identity_map_convert_2m_to_4k (e : ept_map) (gpa_2m : Nat) : ept_map :=
  (List.range 512).foldl
    (fun acc i =>
      map_4k acc (gpa_2m + i * UV_PAGE_SIZE) (gpa_2m + i * UV_PAGE_SIZE)
        attr_type.read_write_execute memory_type.write_back)
    (ept_unmap e gpa_2m)

theorem ept_lookup_set_self (e : ept_map) (gpa : Nat) (ent : EptEntry) :
    ept_lookup (ept_set e gpa ent) gpa = some ent := by
  induction e with
  | nil => simp [ept_set, ept_lookup]
  | cons kv rest ih =>
    by_cases h : kv.fst = gpa
    · simp [ept_set, ept_lookup, h]
    · simp [ept_set, ept_lookup, h, ih]

/-- State of one donation pairing: the root's EPT map, the guest's EPT
map (or its Xen alternate page list), the root's donated-page tracker
and a count of completed TLB shootdowns. -/
structure DomState where
  root_ept : ept_map
  guest_ept : ept_map
  guest_xen_pages : List (Nat × Nat × attr_type × memory_type)
  donated : donated_page_map
  shootdown_count : Nat
deriving DecidableEq, Repr

/-- Modelled from the spec: outcome of a donation/reclaim call.
`SUCCESS`/`FAILURE`/`AGAIN` are the MicroV status codes; the distinct
`FATAL_CONTRACT` outcome models a contract violation (`expects`) that
escapes the function instead of being returned (spec 7: fatal errors
abort the operation). -/
inductive hypercall_result where
  | SUCCESS
  | FAILURE
  | AGAIN
  | FATAL_CONTRACT
deriving DecidableEq, Repr

/-- Modelled from the spec: `bfn::upper(addr, 12)`, the 4K-aligned
address obtained by clearing the low 12 bits. -/
def bfn_upper_4k (addr : Nat) : Nat := 4096 * (addr / 4096)

/-- Modelled from the spec: `bfn::upper(addr, 21)`, the 2M-aligned
address. -/
def bfn_upper_2m (addr : Nat) : Nat := 2097152 * (addr / 2097152)

/-- Final step of `donate_root_page`: install the guest-side mapping,
either through the Xen alternate path (`add_root_page`) or the guest's
EPT map. -/
def install_guest_mapping (st : DomState) (guest_is_xen : Bool)
    (guest_gpa root_gpa_4k : Nat) (perm : attr_type) (mtype : memory_type) : DomState :=
  if guest_is_xen then
    { st with guest_xen_pages :=
        st.guest_xen_pages ++ [(guest_gpa, root_gpa_4k, perm, mtype)] }
  else
    { st with guest_ept := map_4k st.guest_ept guest_gpa root_gpa_4k perm mtype }

/-- Translation of `domain::donate_root_page`.  External collaborators
are oracles: `resolve` models `vcpu::gpa_to_hpa` (`none` models the
thrown exception, caught and turned into `FAILURE`), `shootdown_ok`
models `begin_shootdown` (`false` models the `AGAIN` return), and
`guest_is_xen` models `guest_dom->is_xen_dom()`.  The leading
`expects(id() == 0)` escapes the function as `FATAL_CONTRACT`; the
inner `expects(hpa == root_gpa_4k)` throws inside the `try` block and is
caught, yielding `FAILURE`.  A completed shootdown increments
`shootdown_count`; 21 is `::x64::pd::from` (a 2M source mapping). -/
def donate_root_page (resolve : Nat → Option (Nat × Nat)) (shootdown_ok : Bool)
    (this_id guest_domid : Nat) (guest_is_xen : Bool) (st : DomState)
    (root_gpa guest_gpa : Nat) (perm : attr_type) (mtype : memory_type) :
    hypercall_result × DomState :=
  if this_id ≠ 0 then (.FATAL_CONTRACT, st)
  else
    let root_gpa_4k := bfn_upper_4k root_gpa
    if page_already_donated st.donated guest_domid root_gpa_4k then
      (.SUCCESS, install_guest_mapping st guest_is_xen guest_gpa root_gpa_4k perm mtype)
    else
      match resolve root_gpa_4k with
      | none => (.FAILURE, st)
      | some (hpa, source_from) =>
          if hpa ≠ root_gpa_4k then (.FAILURE, st)
          else if shootdown_ok = false then (.AGAIN, st)
          else
            let st1 := { st with shootdown_count := st.shootdown_count + 1 }
            let st2 :=
              if source_from = 21 then
                { st1 with root_ept :=
                    identity_map_convert_2m_to_4k st1.root_ept (bfn_upper_2m root_gpa) }
              else st1
            let st3 := { st2 with root_ept := ept_unmap st2.root_ept root_gpa_4k }
            let st4 := { st3 with donated :=
                add_page_to_donated_range st3.donated guest_domid root_gpa_4k }
            (.SUCCESS,
              install_guest_mapping st4 guest_is_xen guest_gpa root_gpa_4k perm mtype)

/-- Translation of `domain::reclaim_root_page`; the Domain Registry
lookup `get_domain` is the oracle `alive` (`true` models a non-null
result, i.e. a still-live guest). -/
def reclaim_root_page (alive : Nat → Bool) (this_id : Nat) (st : DomState)
    (guest_domid root_gpa : Nat) : hypercall_result × DomState :=
  if this_id ≠ 0 then (.FAILURE, st)
  else if alive guest_domid then (.FAILURE, st)
  else
    let root_gpa_4k := bfn_upper_4k root_gpa
    if page_already_donated st.donated guest_domid root_gpa_4k = false then
      (.FAILURE, st)
    else
      (.SUCCESS,
        { st with
          donated := remove_page_from_donated_range st.donated guest_domid root_gpa_4k,
          root_ept := map_4k_rwe st.root_ept root_gpa_4k root_gpa_4k })

/-- Translation of `domain::reclaim_root_pages`: same liveness guard;
re-identity-maps every page of every interval of the borrower and then
erases the borrower's whole tracker entry. -/
def reclaim_root_pages (alive : Nat → Bool) (this_id : Nat) (st : DomState)
    (guest_domid : Nat) : hypercall_result × DomState :=
  if this_id ≠ 0 then (.FAILURE, st)
  else if alive guest_domid then (.FAILURE, st)
  else
    match tracker_find st.donated guest_domid with
    | none => (.FAILURE, st)
    | some ranges =>
        let new_ept := ranges.foldl
          (fun acc r =>
            (List.range r.m_page_count).foldl
              (fun acc2 i =>
                map_4k_rwe acc2 (r.m_page_start + i * UV_PAGE_SIZE)
                  (r.m_page_start + i * UV_PAGE_SIZE))
              acc)
          st.root_ept
        (.SUCCESS,
          { st with
            root_ept := new_ept,
            donated := tracker_erase st.donated guest_domid })

/-- Capabilities of the IOMMU serving one assigned PCI device
(`pdev->m_iommu`). -/
structure iommu_info where
  iommu_id : Nat
  coherent_page_walk : Bool
  snoop_ctl : Bool
deriving DecidableEq, Repr

/-- State touched by `prepare_iommus`: the domain's IOMMU reference set
and the coherence/snoop-control/flush bookkeeping of its EPT map. -/
structure IommuSetupState where
  iommu_set : List Nat
  ept_iommu_coherent : Bool
  ept_iommu_snoop_ctl : Bool
  ept_flush_count : Nat
  dma_map_ready : Bool
deriving DecidableEq, Repr

/-- Translation of `domain::add_iommu`: idempotent insertion into the
IOMMU reference set. -/
def add_iommu (st : IommuSetupState) (iommu : Nat) : IommuSetupState :=
  if st.iommu_set.contains iommu then st
  else { st with iommu_set := st.iommu_set ++ [iommu] }

/-- Translation of `domain::prepare_iommus`: intersect the
coherent-page-walk and snoop-control capabilities over the IOMMUs of all
assigned PCI devices, record the intersection on the EPT map, and flush
the tables once when page-walk coherence is lacking. -/
def prepare_iommus (pdevs : List iommu_info) (st : IommuSetupState) : IommuSetupState :=
  let folded := pdevs.foldl
    (fun acc pdev =>
      (pdev.coherent_page_walk && acc.1, pdev.snoop_ctl && acc.2.1,
        add_iommu acc.2.2 pdev.iommu_id))
    (true, true, st)
  let st1 := { folded.2.2 with
    ept_iommu_coherent := folded.1,
    ept_iommu_snoop_ctl := folded.2.1 }
  let st2 :=
    if folded.1 = false then { st1 with ept_flush_count := st1.ept_flush_count + 1 }
    else st1
  { st2 with dma_map_ready := true }

theorem takeWhile_append_all {α : Type _} (f : α → Bool) {xs : List α} (ys : List α)
    (h : ∀ x ∈ xs, f x = true) :
    (xs ++ ys).takeWhile f = xs ++ ys.takeWhile f ∧
    (xs ++ ys).dropWhile f = ys.dropWhile f := by
  induction xs with
  | nil => simp
  | cons a t ih =>
    have ha := h a (by simp)
    have iht := ih (fun x hx => h x (List.mem_cons_of_mem a hx))
    simp [List.takeWhile_cons, List.dropWhile_cons, ha, iht.1, iht.2]

theorem takeWhile_append_stop {α : Type _} (f : α → Bool) (xs : List α) {ys : List α}
    (h : ys = [] ∨ ∃ y t, ys = y :: t ∧ f y = false) :
    (xs ++ ys).takeWhile f = xs.takeWhile f ∧
    (xs ++ ys).dropWhile f = xs.dropWhile f ++ ys := by
  induction xs with
  | nil =>
    rcases h with rfl | ⟨y, t, rfl, hy⟩
    · simp
    · simp [List.takeWhile_cons, List.dropWhile_cons, hy]
  | cons a t ih =>
    by_cases ha : f a
    · simp [List.takeWhile_cons, List.dropWhile_cons, ha, ih.1, ih.2]
    · simp [List.takeWhile_cons, List.dropWhile_cons, ha]

/-- Inserting a page of the block `[p, p + 3 pages)` into a set that
splits into a context `L` entirely below `p`, a middle part `M`, and a
context `R` entirely above the block only rewrites the middle part. -/
theorem add_page_context (L M R : page_range_set) (p q : Nat)
    (hL : ∀ r ∈ L, 0 < r.m_page_count ∧ r.limit < p)
    (hR : ∀ r ∈ R, p + 3 * UV_PAGE_SIZE < r.start)
    (hq1 : p ≤ q) (hq2 : q ≤ p + 2 * UV_PAGE_SIZE) :
    add_page_to_range_set (L ++ (M ++ R)) q =
      L ++ (add_page_to_range_set M q ++ R) := by
  have hP : UV_PAGE_SIZE = 4096 := rfl
  have hLtrue : ∀ x ∈ L, (fun r : page_range => decide (r.start < q)) x = true := by
    intro x hx
    obtain ⟨h1, h2⟩ := hL x hx
    simp only [limit_eq] at h2
    simp only [decide_eq_true_eq, page_range.start]
    omega
  have hRgt : ∀ x ∈ R, q + UV_PAGE_SIZE < x.start := by
    intro x hx
    have h1 := hR x hx
    omega
  have hstop : R = [] ∨
      ∃ y t, R = y :: t ∧ (fun r : page_range => decide (r.start < q)) y = false := by
    rcases hRc : R with _ | ⟨y, t⟩
    · exact Or.inl rfl
    · refine Or.inr ⟨y, t, rfl, ?_⟩
      have h1 := hRgt y (by rw [hRc]; simp)
      simp only [decide_eq_false_iff_not, not_lt]
      omega
  obtain ⟨htw1, hdw1⟩ :=
    takeWhile_append_all (fun r : page_range => decide (r.start < q)) (M ++ R) hLtrue
  obtain ⟨htw2, hdw2⟩ :=
    takeWhile_append_stop (fun r : page_range => decide (r.start < q)) M hstop
  have hbelow : ranges_below (L ++ (M ++ R)) q = L ++ ranges_below M q := by
    simp only [ranges_below]
    rw [htw1, htw2]
  have hfrom : ranges_from (L ++ (M ++ R)) q = ranges_from M q ++ R := by
    simp only [ranges_from]
    rw [hdw1, hdw2]
  have hLlast : ∀ lastL, L.getLast? = some lastL → ¬ lastL.contiguous_below q := by
    intro lastL hgL hc
    have h1 := (hL lastL (getLast?_mem hgL)).2
    simp only [page_range.contiguous_below] at hc
    omega
  rcases haM : ranges_from M q with _ | ⟨h0, t0⟩
  · -- the lower bound of q in M is at the end of M
    have hbMeq : ranges_below M q = M := by
      have h1 := ranges_below_append_from M q
      rw [haM, List.append_nil] at h1
      exact h1
    rcases R with _ | ⟨r1, t1⟩
    · -- R empty: the whole set is L ++ M
      simp only [List.append_nil] at hbelow hfrom ⊢
      rcases hgM : M.getLast? with _ | lastM
      · -- M empty as well
        rw [List.getLast?_eq_none_iff] at hgM
        subst hgM
        simp only [List.append_nil] at hbelow hfrom ⊢
        rcases hgL : L.getLast? with _ | lastL
        · rw [List.getLast?_eq_none_iff] at hgL
          subst hgL
          rfl
        · have hLne : L ≠ [] := by
            intro h
            rw [h] at hgL
            simp at hgL
          have hsne : L.isEmpty = false := by simp [List.isEmpty_eq_false, hLne]
          have hfl : ranges_from L q = [] := by simpa [ranges_from] using hfrom
          have hbl : ranges_below L q = L := by simpa [ranges_below] using hbelow
          have hres : add_page_to_range_set L q = L ++ [⟨q, 1⟩] := by
            simp only [add_page_to_range_set, hsne, Bool.false_eq_true, if_false,
              hfl, hbl, hgL, if_neg (hLlast lastL hgL)]
          rw [hres]
          rfl
      · -- M nonempty
        have hMne : M ≠ [] := by
          intro h
          rw [h] at hgM
          simp at hgM
        have hsne : (L ++ M).isEmpty = false := by
          simp [List.isEmpty_eq_false, List.append_ne_nil_of_right_ne_nil L hMne]
        have hMie : M.isEmpty = false := by simp [List.isEmpty_eq_false, hMne]
        have hgLM : (L ++ ranges_below M q).getLast? = some lastM := by
          rw [hbMeq, List.getLast?_append_of_ne_nil L hMne, hgM]
        have hres1 : add_page_to_range_set (L ++ M) q =
            (if lastM.contiguous_below q then
              (L ++ ranges_below M q).dropLast ++ [extend_page_range_above lastM]
            else (L ++ ranges_below M q) ++ [⟨q, 1⟩]) := by
          simp only [add_page_to_range_set, hsne, Bool.false_eq_true, if_false]
          rw [show ranges_from (L ++ M) q = [] from by rw [hfrom, haM],
            show ranges_below (L ++ M) q = L ++ ranges_below M q from hbelow]
          rw [hgLM]
        have hres2 : add_page_to_range_set M q =
            (if lastM.contiguous_below q then
              (ranges_below M q).dropLast ++ [extend_page_range_above lastM]
            else ranges_below M q ++ [⟨q, 1⟩]) := by
          simp only [add_page_to_range_set, hMie, Bool.false_eq_true, if_false, haM]
          rw [hbMeq, hgM]
        rw [hres1, hres2]
        by_cases hcb : lastM.contiguous_below q
        · rw [if_pos hcb, if_pos hcb, hbMeq,
            List.dropLast_append_of_ne_nil L hMne]
          simp
        · rw [if_neg hcb, if_neg hcb]
          simp
    · -- R nonempty: the lower bound in the full list is the head of R
      have hsne : (L ++ (M ++ r1 :: t1)).isEmpty = false := by
        simp [List.isEmpty_eq_false]
      have hfrom' : ranges_from (L ++ (M ++ r1 :: t1)) q = r1 :: t1 := by
        rw [hfrom, haM, List.nil_append]
      have hca1 : ¬ r1.contiguous_above q := by
        intro hc
        have h1 := hRgt r1 (by simp)
        simp only [page_range.contiguous_above] at hc
        omega
      rcases hgM : M.getLast? with _ | lastM
      · -- M empty
        rw [List.getLast?_eq_none_iff] at hgM
        subst hgM
        have hres1 : add_page_to_range_set (([] : page_range_set) ++ r1 :: t1) q =
            ([] : page_range_set) ++ [⟨q, 1⟩] ++ r1 :: t1 → True := fun _ => trivial
        clear hres1
        have hbeleq : ranges_below (L ++ (([] : page_range_set) ++ r1 :: t1)) q = L := by
          rw [hbelow]
          simp [ranges_below]
        have hresL : add_page_to_range_set (L ++ (([] : page_range_set) ++ r1 :: t1)) q =
            (match L.getLast? with
            | none => L ++ ⟨q, 1⟩ :: r1 :: t1
            | some last =>
                if last.contiguous_below q then
                  L.dropLast ++ extend_page_range_above last :: r1 :: t1
                else L ++ ⟨q, 1⟩ :: r1 :: t1) := by
          simp only [add_page_to_range_set, hsne, Bool.false_eq_true, if_false,
            hfrom', hbeleq, if_neg hca1]
        rw [hresL]
        rcases hgL : L.getLast? with _ | lastL
        · rw [List.getLast?_eq_none_iff] at hgL
          subst hgL
          simp [add_page_to_range_set]
        · simp only [hgL]
          rw [if_neg (hLlast lastL hgL)]
          simp [add_page_to_range_set]
      · -- M nonempty
        have hMne : M ≠ [] := by
          intro h
          rw [h] at hgM
          simp at hgM
        have hMie : M.isEmpty = false := by simp [List.isEmpty_eq_false, hMne]
        have hgLM : (L ++ ranges_below M q).getLast? = some lastM := by
          rw [hbMeq, List.getLast?_append_of_ne_nil L hMne, hgM]
        have hres1 : add_page_to_range_set (L ++ (M ++ r1 :: t1)) q =
            (if lastM.contiguous_below q then
              (L ++ ranges_below M q).dropLast ++
                extend_page_range_above lastM :: r1 :: t1
            else (L ++ ranges_below M q) ++ ⟨q, 1⟩ :: r1 :: t1) := by
          simp only [add_page_to_range_set, hsne, Bool.false_eq_true, if_false,
            hfrom', hbelow, if_neg hca1]
          rw [hgLM]
        have hres2 : add_page_to_range_set M q =
            (if lastM.contiguous_below q then
              (ranges_below M q).dropLast ++ [extend_page_range_above lastM]
            else ranges_below M q ++ [⟨q, 1⟩]) := by
          simp only [add_page_to_range_set, hMie, Bool.false_eq_true, if_false, haM]
          rw [hbMeq, hgM]
        rw [hres1, hres2]
        by_cases hcb : lastM.contiguous_below q
        · rw [if_pos hcb, if_pos hcb, hbMeq,
            List.dropLast_append_of_ne_nil L hMne]
          simp
        · rw [if_neg hcb, if_neg hcb]
          simp
  · -- the lower bound of q falls inside M
    have hMne : M ≠ [] := by
      intro h
      rw [h] at haM
      simp [ranges_from] at haM
    have hMie : M.isEmpty = false := by simp [List.isEmpty_eq_false, hMne]
    have hsne : (L ++ (M ++ R)).isEmpty = false := by
      simp [List.isEmpty_eq_false, List.append_ne_nil_of_right_ne_nil L
        (List.append_ne_nil_of_left_ne_nil hMne R)]
    have hfrom' : ranges_from (L ++ (M ++ R)) q = h0 :: (t0 ++ R) := by
      rw [hfrom, haM]
      simp
    have hres1 : add_page_to_range_set (L ++ (M ++ R)) q =
        (if h0.contiguous_above q then
          (L ++ ranges_below M q) ++ extend_page_range_below h0 :: (t0 ++ R)
        else
          match (L ++ ranges_below M q).getLast? with
          | none => (L ++ ranges_below M q) ++ ⟨q, 1⟩ :: h0 :: (t0 ++ R)
          | some last =>
              if last.contiguous_below q then
                (L ++ ranges_below M q).dropLast ++
                  extend_page_range_above last :: h0 :: (t0 ++ R)
              else (L ++ ranges_below M q) ++ ⟨q, 1⟩ :: h0 :: (t0 ++ R)) := by
      simp only [add_page_to_range_set, hsne, Bool.false_eq_true, if_false, hfrom',
        hbelow]
    have hres2 : add_page_to_range_set M q =
        (if h0.contiguous_above q then
          ranges_below M q ++ extend_page_range_below h0 :: t0
        else
          match (ranges_below M q).getLast? with
          | none => ranges_below M q ++ ⟨q, 1⟩ :: h0 :: t0
          | some last =>
              if last.contiguous_below q then
                (ranges_below M q).dropLast ++
                  extend_page_range_above last :: h0 :: t0
              else ranges_below M q ++ ⟨q, 1⟩ :: h0 :: t0) := by
      simp only [add_page_to_range_set, hMie, Bool.false_eq_true, if_false, haM]
    rw [hres1, hres2]
    by_cases hca : h0.contiguous_above q
    · rw [if_pos hca, if_pos hca]
      simp
    · rw [if_neg hca, if_neg hca]
      rcases hgbM : (ranges_below M q).getLast? with _ | lastM
      · rw [List.getLast?_eq_none_iff] at hgbM
        rw [hgbM, List.append_nil]
        rcases hgL : L.getLast? with _ | lastL
        · rw [List.getLast?_eq_none_iff] at hgL
          subst hgL
          simp
        · simp only [hgL, List.getLast?_nil]
          rw [if_neg (hLlast lastL hgL)]
          simp
      · have hbMne : ranges_below M q ≠ [] := by
          intro h
          rw [h] at hgbM
          simp at hgbM
        rw [List.getLast?_append_of_ne_nil L hbMne]
        simp only [hgbM]
        by_cases hcb : lastM.contiguous_below q
        · rw [if_pos hcb, if_pos hcb, List.dropLast_append_of_ne_nil L hbMne]
          simp
        · rw [if_neg hcb, if_neg hcb]
          simp

/-- A well-formed set whose intervals all avoid and are not adjacent to
the block `[p, p + 3 pages)` splits into a low and a high context. -/
theorem isolate_split :
    ∀ (s : page_range_set) (p : Nat), range_set_wf s →
    (∀ r ∈ s, r.limit < p ∨ p + 3 * UV_PAGE_SIZE < r.start) →
    ∃ L R, s = L ++ R ∧
      (∀ r ∈ L, 0 < r.m_page_count ∧ r.limit < p) ∧
      (∀ r ∈ R, p + 3 * UV_PAGE_SIZE < r.start) := by
  intro s p hwf hiso
  induction s with
  | nil => exact ⟨[], [], rfl, by simp, by simp⟩
  | cons a t ih =>
    obtain ⟨hpw, hdata⟩ := hwf
    obtain ⟨hhead, htail⟩ := List.pairwise_cons.mp hpw
    rcases hiso a (by simp) with hlo | hhi
    · obtain ⟨L, R, hLR, hL, hR⟩ :=
        ih ⟨htail, fun r hr => hdata r (List.mem_cons_of_mem a hr)⟩
          (fun r hr => hiso r (List.mem_cons_of_mem a hr))
      refine ⟨a :: L, R, by rw [hLR]; rfl, ?_, hR⟩
      intro r hr
      rcases List.mem_cons.mp hr with rfl | hr2
      · exact ⟨(hdata r (by simp)).1, hlo⟩
      · exact hL r hr2
    · refine ⟨[], a :: t, rfl, by simp, ?_⟩
      intro r hr
      rcases List.mem_cons.mp hr with rfl | hr2
      · exact hhi
      · have h1 := hhead r hr2
        have h2 := start_lt_limit (hdata a (by simp)).1
        omega

theorem add_eval_singleton (q : Nat) :
    add_page_to_range_set [] q = [⟨q, 1⟩] := rfl

theorem add_eval_above_1 (p : Nat) :
    add_page_to_range_set [⟨p, 1⟩] (p + UV_PAGE_SIZE) = [⟨p, 2⟩] := by
  simp_arith [add_page_to_range_set, ranges_below, ranges_from,
    extend_page_range_above, extend_page_range_below, page_range.contiguous_below,
    page_range.contiguous_above, page_range.start, page_range.limit,
    UV_PAGE_SIZE, List.takeWhile_cons, List.dropWhile_cons]

theorem add_eval_above_2 (p : Nat) :
    add_page_to_range_set [⟨p, 2⟩] (p + 2 * UV_PAGE_SIZE) = [⟨p, 3⟩] := by
  simp_arith [add_page_to_range_set, ranges_below, ranges_from,
    extend_page_range_above, extend_page_range_below, page_range.contiguous_below,
    page_range.contiguous_above, page_range.start, page_range.limit,
    UV_PAGE_SIZE, List.takeWhile_cons, List.dropWhile_cons]

theorem add_eval_gap_up (p : Nat) :
    add_page_to_range_set [⟨p, 1⟩] (p + 2 * UV_PAGE_SIZE) =
      [⟨p, 1⟩, ⟨p + 2 * UV_PAGE_SIZE, 1⟩] := by
  simp_arith [add_page_to_range_set, ranges_below, ranges_from,
    extend_page_range_above, extend_page_range_below, page_range.contiguous_below,
    page_range.contiguous_above, page_range.start, page_range.limit,
    UV_PAGE_SIZE, List.takeWhile_cons, List.dropWhile_cons]

theorem add_eval_below_mid (p : Nat) :
    add_page_to_range_set [⟨p + UV_PAGE_SIZE, 1⟩] p = [⟨p, 2⟩] := by
  simp_arith [add_page_to_range_set, ranges_below, ranges_from,
    extend_page_range_above, extend_page_range_below, page_range.contiguous_below,
    page_range.contiguous_above, page_range.start, page_range.limit,
    UV_PAGE_SIZE, List.takeWhile_cons, List.dropWhile_cons]

theorem add_eval_mid_up (p : Nat) :
    add_page_to_range_set [⟨p + UV_PAGE_SIZE, 1⟩] (p + 2 * UV_PAGE_SIZE) =
      [⟨p + UV_PAGE_SIZE, 2⟩] := by
  simp_arith [add_page_to_range_set, ranges_below, ranges_from,
    extend_page_range_above, extend_page_range_below, page_range.contiguous_below,
    page_range.contiguous_above, page_range.start, page_range.limit,
    UV_PAGE_SIZE, List.takeWhile_cons, List.dropWhile_cons]

theorem add_eval_below_2 (p : Nat) :
    add_page_to_range_set [⟨p + UV_PAGE_SIZE, 2⟩] p = [⟨p, 3⟩] := by
  simp_arith [add_page_to_range_set, ranges_below, ranges_from,
    extend_page_range_above, extend_page_range_below, page_range.contiguous_below,
    page_range.contiguous_above, page_range.start, page_range.limit,
    UV_PAGE_SIZE, List.takeWhile_cons, List.dropWhile_cons]

theorem add_eval_gap_down (p : Nat) :
    add_page_to_range_set [⟨p + 2 * UV_PAGE_SIZE, 1⟩] p =
      [⟨p, 1⟩, ⟨p + 2 * UV_PAGE_SIZE, 1⟩] := by
  simp_arith [add_page_to_range_set, ranges_below, ranges_from,
    extend_page_range_above, extend_page_range_below, page_range.contiguous_below,
    page_range.contiguous_above, page_range.start, page_range.limit,
    UV_PAGE_SIZE, List.takeWhile_cons, List.dropWhile_cons]

theorem add_eval_top_mid (p : Nat) :
    add_page_to_range_set [⟨p + 2 * UV_PAGE_SIZE, 1⟩] (p + UV_PAGE_SIZE) =
      [⟨p + UV_PAGE_SIZE, 2⟩] := by
  simp_arith [add_page_to_range_set, ranges_below, ranges_from,
    extend_page_range_above, extend_page_range_below, page_range.contiguous_below,
    page_range.contiguous_above, page_range.start, page_range.limit,
    UV_PAGE_SIZE, List.takeWhile_cons, List.dropWhile_cons]

theorem add_eval_fill_gap (p : Nat) :
    add_page_to_range_set [⟨p, 1⟩, ⟨p + 2 * UV_PAGE_SIZE, 1⟩] (p + UV_PAGE_SIZE) =
      [⟨p, 1⟩, ⟨p + UV_PAGE_SIZE, 2⟩] := by
  simp_arith [add_page_to_range_set, ranges_below, ranges_from,
    extend_page_range_above, extend_page_range_below, page_range.contiguous_below,
    page_range.contiguous_above, page_range.start, page_range.limit,
    UV_PAGE_SIZE, List.takeWhile_cons, List.dropWhile_cons]

theorem tracker_find_add (t : donated_page_map) (d p : Nat) :
    tracker_find (add_page_to_donated_range t d p) d =
      some (add_page_to_range_set ((tracker_find t d).getD []) p) := by
  unfold add_page_to_donated_range
  rcases h : tracker_find t d with _ | s
  · simp [tracker_find_set_self]
  · simp [tracker_find_set_self]

/-- C1 (amended): starting from a well-formed borrower interval set that
neither contains nor is adjacent to the page-aligned block
`p, p+1, p+2`, inserting those three pages via
`add_page_to_donated_range` yields exactly the single new interval
`{start=p, count=3}` in the four insertion orders that do not insert the
middle page last; in the two orders that insert the middle page `p+1`
last, insert extends only the upper neighbor downward and leaves the two
adjacent intervals `{p,1}` and `{p+1 page, 2}` uncoalesced, so the
claimed single interval `{p,3}` is not produced and the
no-adjacent-intervals invariant is violated. -/
theorem C1_insert_three_pages_coalescing
    (t : donated_page_map) (d : Nat) (s : page_range_set) (p : Nat)
    (hfind : tracker_find t d = some s)
    (hwf : range_set_wf s) (hal : aligned p)
    (hiso : ∀ r ∈ s, r.limit < p ∨ p + 3 * UV_PAGE_SIZE < r.start) :
    ∃ L R, s = L ++ R ∧
      (∀ r ∈ L, 0 < r.m_page_count ∧ r.limit < p) ∧
      (∀ r ∈ R, p + 3 * UV_PAGE_SIZE < r.start) ∧
      tracker_find (add_page_to_donated_range (add_page_to_donated_range
        (add_page_to_donated_range t d p) d (p + UV_PAGE_SIZE))
        d (p + 2 * UV_PAGE_SIZE)) d = some (L ++ ⟨p, 3⟩ :: R) ∧
      tracker_find (add_page_to_donated_range (add_page_to_donated_range
        (add_page_to_donated_range t d (p + UV_PAGE_SIZE)) d p)
        d (p + 2 * UV_PAGE_SIZE)) d = some (L ++ ⟨p, 3⟩ :: R) ∧
      tracker_find (add_page_to_donated_range (add_page_to_donated_range
        (add_page_to_donated_range t d (p + UV_PAGE_SIZE))
        d (p + 2 * UV_PAGE_SIZE)) d p) d = some (L ++ ⟨p, 3⟩ :: R) ∧
      tracker_find (add_page_to_donated_range (add_page_to_donated_range
        (add_page_to_donated_range t d (p + 2 * UV_PAGE_SIZE))
        d (p + UV_PAGE_SIZE)) d p) d = some (L ++ ⟨p, 3⟩ :: R) ∧
      tracker_find (add_page_to_donated_range (add_page_to_donated_range
        (add_page_to_donated_range t d p) d (p + 2 * UV_PAGE_SIZE))
        d (p + UV_PAGE_SIZE)) d =
        some (L ++ ⟨p, 1⟩ :: ⟨p + UV_PAGE_SIZE, 2⟩ :: R) ∧
      tracker_find (add_page_to_donated_range (add_page_to_donated_range
        (add_page_to_donated_range t d (p + 2 * UV_PAGE_SIZE)) d p)
        d (p + UV_PAGE_SIZE)) d =
        some (L ++ ⟨p, 1⟩ :: ⟨p + UV_PAGE_SIZE, 2⟩ :: R) := by
  obtain ⟨L, R, hLR, hL, hR⟩ := isolate_split s p hwf hiso
  have hs0 : s = L ++ ([] ++ R) := by rw [hLR]; rfl
  have ctx : ∀ (M : page_range_set) (q : Nat), p ≤ q → q ≤ p + 2 * UV_PAGE_SIZE →
      add_page_to_range_set (L ++ (M ++ R)) q =
        L ++ (add_page_to_range_set M q ++ R) :=
    fun M q h1 h2 => add_page_context L M R p q hL hR h1 h2
  have lift : ∀ (q1 q2 q3 : Nat) (res : page_range_set),
      add_page_to_range_set (add_page_to_range_set
        (add_page_to_range_set s q1) q2) q3 = res →
      tracker_find (add_page_to_donated_range (add_page_to_donated_range
        (add_page_to_donated_range t d q1) d q2) d q3) d = some res := by
    intro q1 q2 q3 res h
    rw [tracker_find_add, tracker_find_add, tracker_find_add, hfind]
    simp only [Option.getD_some]
    rw [h]
  refine ⟨L, R, hLR, hL, hR, ?_, ?_, ?_, ?_, ?_, ?_⟩
  · apply lift
    rw [hs0, ctx [] p (le_refl p) (by omega), add_eval_singleton,
      ctx [⟨p, 1⟩] (p + UV_PAGE_SIZE) (by omega) (by omega), add_eval_above_1,
      ctx [⟨p, 2⟩] (p + 2 * UV_PAGE_SIZE) (by omega) (by omega), add_eval_above_2]
    rfl
  · apply lift
    rw [hs0, ctx [] (p + UV_PAGE_SIZE) (by omega) (by omega), add_eval_singleton,
      ctx [⟨p + UV_PAGE_SIZE, 1⟩] p (le_refl p) (by omega), add_eval_below_mid,
      ctx [⟨p, 2⟩] (p + 2 * UV_PAGE_SIZE) (by omega) (by omega), add_eval_above_2]
    rfl
  · apply lift
    rw [hs0, ctx [] (p + UV_PAGE_SIZE) (by omega) (by omega), add_eval_singleton,
      ctx [⟨p + UV_PAGE_SIZE, 1⟩] (p + 2 * UV_PAGE_SIZE) (by omega) (by omega),
      add_eval_mid_up,
      ctx [⟨p + UV_PAGE_SIZE, 2⟩] p (le_refl p) (by omega), add_eval_below_2]
    rfl
  · apply lift
    rw [hs0, ctx [] (p + 2 * UV_PAGE_SIZE) (by omega) (by omega), add_eval_singleton,
      ctx [⟨p + 2 * UV_PAGE_SIZE, 1⟩] (p + UV_PAGE_SIZE) (by omega) (by omega),
      add_eval_top_mid,
      ctx [⟨p + UV_PAGE_SIZE, 2⟩] p (le_refl p) (by omega), add_eval_below_2]
    rfl
  · apply lift
    rw [hs0, ctx [] p (le_refl p) (by omega), add_eval_singleton,
      ctx [⟨p, 1⟩] (p + 2 * UV_PAGE_SIZE) (by omega) (by omega), add_eval_gap_up,
      ctx [⟨p, 1⟩, ⟨p + 2 * UV_PAGE_SIZE, 1⟩] (p + UV_PAGE_SIZE)
        (by omega) (by omega), add_eval_fill_gap]
    rfl
  · apply lift
    rw [hs0, ctx [] (p + 2 * UV_PAGE_SIZE) (by omega) (by omega), add_eval_singleton,
      ctx [⟨p + 2 * UV_PAGE_SIZE, 1⟩] p (le_refl p) (by omega), add_eval_gap_down,
      ctx [⟨p, 1⟩, ⟨p + 2 * UV_PAGE_SIZE, 1⟩] (p + UV_PAGE_SIZE)
        (by omega) (by omega), add_eval_fill_gap]
    rfl

/-- C1 counterexample: with the empty interval set (which neither
contains nor is adjacent to the block) and `p = 0`, inserting the three
pages in the order bottom, top, middle leaves two intervals, not the
single interval `{0, 3}` the claim demands for every order. -/
theorem C1_counterexample :
    range_set_wf ([] : page_range_set) ∧ aligned 0 ∧
    (∀ r ∈ ([] : page_range_set), r.limit < 0 ∨ 0 + 3 * UV_PAGE_SIZE < r.start) ∧
    tracker_find (add_page_to_donated_range (add_page_to_donated_range
      (add_page_to_donated_range [(1, ([] : page_range_set))] 1 0)
      1 (2 * UV_PAGE_SIZE)) 1 UV_PAGE_SIZE) 1 ≠ some [⟨0, 3⟩] := by
  decide

/-- C1 witness: the amended theorem applied at the borrower set
`{start=0, count=1}` with `p` two pages above it. -/
theorem C1_witness :
    (tracker_find [(1, [⟨0, 1⟩])] 1 = some [⟨0, 1⟩] ∧
      range_set_wf [⟨0, 1⟩] ∧ aligned 8192 ∧
      (∀ r ∈ [(⟨0, 1⟩ : page_range)], r.limit < 8192 ∨
        8192 + 3 * UV_PAGE_SIZE < r.start)) ∧
    (∃ L R, [(⟨0, 1⟩ : page_range)] = L ++ R ∧
      (∀ r ∈ L, 0 < r.m_page_count ∧ r.limit < 8192) ∧
      (∀ r ∈ R, 8192 + 3 * UV_PAGE_SIZE < r.start) ∧
      tracker_find (add_page_to_donated_range (add_page_to_donated_range
        (add_page_to_donated_range [(1, [⟨0, 1⟩])] 1 8192) 1 (8192 + UV_PAGE_SIZE))
        1 (8192 + 2 * UV_PAGE_SIZE)) 1 = some (L ++ ⟨8192, 3⟩ :: R) ∧
      tracker_find (add_page_to_donated_range (add_page_to_donated_range
        (add_page_to_donated_range [(1, [⟨0, 1⟩])] 1 (8192 + UV_PAGE_SIZE)) 1 8192)
        1 (8192 + 2 * UV_PAGE_SIZE)) 1 = some (L ++ ⟨8192, 3⟩ :: R) ∧
      tracker_find (add_page_to_donated_range (add_page_to_donated_range
        (add_page_to_donated_range [(1, [⟨0, 1⟩])] 1 (8192 + UV_PAGE_SIZE))
        1 (8192 + 2 * UV_PAGE_SIZE)) 1 8192) 1 = some (L ++ ⟨8192, 3⟩ :: R) ∧
      tracker_find (add_page_to_donated_range (add_page_to_donated_range
        (add_page_to_donated_range [(1, [⟨0, 1⟩])] 1 (8192 + 2 * UV_PAGE_SIZE))
        1 (8192 + UV_PAGE_SIZE)) 1 8192) 1 = some (L ++ ⟨8192, 3⟩ :: R) ∧
      tracker_find (add_page_to_donated_range (add_page_to_donated_range
        (add_page_to_donated_range [(1, [⟨0, 1⟩])] 1 8192)
        1 (8192 + 2 * UV_PAGE_SIZE)) 1 (8192 + UV_PAGE_SIZE)) 1 =
        some (L ++ ⟨8192, 1⟩ :: ⟨8192 + UV_PAGE_SIZE, 2⟩ :: R) ∧
      tracker_find (add_page_to_donated_range (add_page_to_donated_range
        (add_page_to_donated_range [(1, [⟨0, 1⟩])] 1 (8192 + 2 * UV_PAGE_SIZE))
        1 8192) 1 (8192 + UV_PAGE_SIZE)) 1 =
        some (L ++ ⟨8192, 1⟩ :: ⟨8192 + UV_PAGE_SIZE, 2⟩ :: R)) :=
  ⟨⟨by decide, by decide, by decide, by decide⟩,
    C1_insert_three_pages_coalescing [(1, [⟨0, 1⟩])] 1 [⟨0, 1⟩] 8192
      (by decide) (by decide) (by decide) (by decide)⟩

theorem tracker_find_remove (t : donated_page_map) (d p : Nat) {s : page_range_set}
    (h : tracker_find t d = some s) :
    tracker_find (remove_page_from_donated_range t d p) d =
      some (remove_page_from_range_set s p) := by
  unfold remove_page_from_donated_range
  rw [h]
  exact tracker_find_set_self t d _

theorem remove_eval_mid5 (p : Nat) :
    remove_page_from_range_set [⟨p, 5⟩] (p + 2 * UV_PAGE_SIZE) =
      [⟨p, 2⟩, ⟨p + 3 * UV_PAGE_SIZE, 2⟩] := by
  simp_arith [remove_page_from_range_set, ranges_below, ranges_from,
    remove_page_at, page_range.contains, page_range.start, page_range.limit,
    page_range.top_page, page_range.middle_page, page_range.bottom_page,
    page_range.count, UV_PAGE_SIZE, UV_PAGE_FROM, shiftRight_page,
    List.takeWhile_cons, List.dropWhile_cons]

theorem remove_eval_bot5 (p : Nat) :
    remove_page_from_range_set [⟨p, 5⟩] p = [⟨p + UV_PAGE_SIZE, 4⟩] := by
  simp_arith [remove_page_from_range_set, ranges_below, ranges_from,
    remove_page_at, page_range.contains, page_range.start, page_range.limit,
    page_range.top_page, page_range.middle_page, page_range.bottom_page,
    page_range.count, UV_PAGE_SIZE, UV_PAGE_FROM, shiftRight_page,
    List.takeWhile_cons, List.dropWhile_cons]

theorem remove_eval_top5 (p : Nat) :
    remove_page_from_range_set [⟨p, 5⟩] (p + 4 * UV_PAGE_SIZE) = [⟨p, 4⟩] := by
  simp_arith [remove_page_from_range_set, ranges_below, ranges_from,
    remove_page_at, page_range.contains, page_range.start, page_range.limit,
    page_range.top_page, page_range.middle_page, page_range.bottom_page,
    page_range.count, UV_PAGE_SIZE, UV_PAGE_FROM, shiftRight_page,
    List.takeWhile_cons, List.dropWhile_cons]

theorem remove_eval_sole (q : Nat) :
    remove_page_from_range_set [⟨q, 1⟩] q = [] := by
  simp_arith [remove_page_from_range_set, ranges_below, ranges_from,
    remove_page_at, page_range.contains, page_range.start, page_range.limit,
    page_range.top_page, page_range.middle_page, page_range.bottom_page,
    page_range.count, UV_PAGE_SIZE, UV_PAGE_FROM, shiftRight_page,
    List.takeWhile_cons, List.dropWhile_cons]

/-- C2: on a borrower whose interval set is the single interval
`{start=p, count=5}`, `remove_page_from_donated_range` of the middle
page `p+2` yields exactly the two intervals `{p,2}` and `{p+3,2}`;
removing the bottom page `p` yields `{p+1,4}`; removing the top page
`p+4` yields `{p,4}`; and removing the sole page of a count-1 interval
deletes the interval entirely. -/
theorem C2_remove_split_shrink_delete
    (t1 : donated_page_map) (d1 p : Nat) (h5 : tracker_find t1 d1 = some [⟨p, 5⟩])
    (t2 : donated_page_map) (d2 q : Nat) (h1 : tracker_find t2 d2 = some [⟨q, 1⟩]) :
    tracker_find (remove_page_from_donated_range t1 d1 (p + 2 * UV_PAGE_SIZE)) d1 =
      some [⟨p, 2⟩, ⟨p + 3 * UV_PAGE_SIZE, 2⟩] ∧
    tracker_find (remove_page_from_donated_range t1 d1 p) d1 =
      some [⟨p + UV_PAGE_SIZE, 4⟩] ∧
    tracker_find (remove_page_from_donated_range t1 d1 (p + 4 * UV_PAGE_SIZE)) d1 =
      some [⟨p, 4⟩] ∧
    tracker_find (remove_page_from_donated_range t2 d2 q) d2 = some [] := by
  refine ⟨?_, ?_, ?_, ?_⟩
  · rw [tracker_find_remove t1 d1 _ h5, remove_eval_mid5]
  · rw [tracker_find_remove t1 d1 _ h5, remove_eval_bot5]
  · rw [tracker_find_remove t1 d1 _ h5, remove_eval_top5]
  · rw [tracker_find_remove t2 d2 _ h1, remove_eval_sole]

/-- C2 witness: the theorem applied to a tracker holding
`{start=0, count=5}` for borrower 1 and a tracker holding a single-page
interval for borrower 2. -/
theorem C2_witness :
    (tracker_find [(1, [⟨0, 5⟩])] 1 = some [⟨0, 5⟩] ∧
      tracker_find [(2, [⟨4096, 1⟩])] 2 = some [⟨4096, 1⟩]) ∧
    (tracker_find (remove_page_from_donated_range [(1, [⟨0, 5⟩])] 1
        (0 + 2 * UV_PAGE_SIZE)) 1 = some [⟨0, 2⟩, ⟨0 + 3 * UV_PAGE_SIZE, 2⟩] ∧
      tracker_find (remove_page_from_donated_range [(1, [⟨0, 5⟩])] 1 0) 1 =
        some [⟨0 + UV_PAGE_SIZE, 4⟩] ∧
      tracker_find (remove_page_from_donated_range [(1, [⟨0, 5⟩])] 1
        (0 + 4 * UV_PAGE_SIZE)) 1 = some [⟨0, 4⟩] ∧
      tracker_find (remove_page_from_donated_range [(2, [⟨4096, 1⟩])] 2 4096) 2 =
        some []) :=
  ⟨⟨by decide, by decide⟩,
    C2_remove_split_shrink_delete [(1, [⟨0, 5⟩])] 1 0 (by decide)
      [(2, [⟨4096, 1⟩])] 2 4096 (by decide)⟩

/-- A page is covered by some interval of some borrower of the tracker. -/
def tracker_covers (t : donated_page_map) (q : Nat) : Bool :=
  t.any (fun kv => decide (covers kv.snd q))

/-- Tracker well-formedness: every borrower's interval set is
well-formed and the interval sets of distinct borrowers are pairwise
interval-disjoint. -/
def TrackerWF (t : donated_page_map) : Prop :=
  (∀ d s, tracker_find t d = some s → range_set_wf s) ∧
  (∀ d1 s1 d2 s2, d1 ≠ d2 → tracker_find t d1 = some s1 →
    tracker_find t d2 = some s2 →
    ∀ r1 ∈ s1, ∀ r2 ∈ s2, r1.limit ≤ r2.start ∨ r2.limit ≤ r1.start)

/-- No-double-donation: a guest-physical page belongs to at most one
interval across all borrowers of the tracker. -/
def AtMostOneInterval (t : donated_page_map) : Prop :=
  ∀ d1 s1 d2 s2 r1 r2 q, tracker_find t d1 = some s1 →
    tracker_find t d2 = some s2 → r1 ∈ s1 → r2 ∈ s2 →
    r1.contains q → r2.contains q → d1 = d2 ∧ r1 = r2

/-- One mutation of the Donated-Page Tracker. -/
inductive tracker_op where
  | insert (guest_domid page_gpa : Nat)
  | remove (guest_domid page_gpa : Nat)
deriving DecidableEq, Repr

def run_op (t : donated_page_map) : tracker_op → donated_page_map
  | .insert d p => add_page_to_donated_range t d p
  | .remove d p => remove_page_from_donated_range t d p

def run_ops (t : donated_page_map) : List tracker_op → donated_page_map
  | [] => t
  | o :: os => run_ops (run_op t o) os

/-- Discipline of the donation path: every inserted page is 4K-aligned
and not currently recorded anywhere in the tracker (`donate_root_page`
only inserts pages that resolve in the root's own space and are not yet
donated); every removed page is 4K-aligned. -/
def legal_ops (t : donated_page_map) : List tracker_op → Prop
  | [] => True
  | .insert d p :: os =>
      aligned p ∧ tracker_covers t p = false ∧
        legal_ops (run_op t (.insert d p)) os
  | .remove d p :: os => aligned p ∧ legal_ops (run_op t (.remove d p)) os

def legal_ops_dec : (ops : List tracker_op) → (t : donated_page_map) →
    Decidable (legal_ops t ops)
  | [], _ => .isTrue trivial
  | .insert d p :: os, t => by
      unfold legal_ops
      haveI := legal_ops_dec os (run_op t (.insert d p))
      infer_instance
  | .remove d p :: os, t => by
      unfold legal_ops
      haveI := legal_ops_dec os (run_op t (.remove d p))
      infer_instance

instance (t : donated_page_map) (ops : List tracker_op) :
    Decidable (legal_ops t ops) := legal_ops_dec ops t

theorem tracker_find_mem :
    ∀ {t : donated_page_map} {d : Nat} {s : page_range_set},
    tracker_find t d = some s → (d, s) ∈ t := by
  intro t
  induction t with
  | nil =>
    intro d s h
    simp [tracker_find] at h
  | cons kv rest ih =>
    intro d s h
    rw [tracker_find] at h
    by_cases hkv : kv.fst = d
    · rw [if_pos hkv] at h
      obtain ⟨a, b⟩ := kv
      simp only at hkv h
      obtain rfl := hkv
      obtain rfl : b = s := by simpa using h
      simp
    · rw [if_neg hkv] at h
      exact List.mem_cons_of_mem kv (ih h)

theorem tracker_covers_false_elim {t : donated_page_map} {p : Nat}
    (h : tracker_covers t p = false) : ∀ kv ∈ t, ¬ covers kv.snd p := by
  intro kv hkv hc
  have h2 : t.any (fun kv => decide (covers kv.snd p)) = true :=
    List.any_eq_true.mpr ⟨kv, hkv, by simpa using hc⟩
  rw [tracker_covers, h2] at h
  cases h

theorem interval_disjoint_of_coverage {s1 s2 : page_range_set}
    (h1 : ∀ r ∈ s1, 0 < r.m_page_count) (h2 : ∀ r ∈ s2, 0 < r.m_page_count)
    (hcov : ∀ q, ¬ (covers s1 q ∧ covers s2 q)) :
    ∀ r1 ∈ s1, ∀ r2 ∈ s2, r1.limit ≤ r2.start ∨ r2.limit ≤ r1.start := by
  intro r1 hr1 r2 hr2
  by_contra hc
  push_neg at hc
  obtain ⟨hc1, hc2⟩ := hc
  have hl1 := start_lt_limit (h1 r1 hr1)
  have hl2 := start_lt_limit (h2 r2 hr2)
  by_cases hss : r1.start ≤ r2.start
  · exact hcov r2.start ⟨⟨r1, hr1, hss, hc1⟩, ⟨r2, hr2, le_refl _, hl2⟩⟩
  · push_neg at hss
    exact hcov r1.start ⟨⟨r1, hr1, le_refl _, hl1⟩, ⟨r2, hr2, by omega, hc2⟩⟩

theorem coverage_disjoint_of_interval {s1 s2 : page_range_set}
    (hint : ∀ r1 ∈ s1, ∀ r2 ∈ s2, r1.limit ≤ r2.start ∨ r2.limit ≤ r1.start) :
    ∀ q, ¬ (covers s1 q ∧ covers s2 q) := by
  rintro q ⟨⟨r1, hr1, hq1a, hq1b⟩, ⟨r2, hr2, hq2a, hq2b⟩⟩
  rcases hint r1 hr1 r2 hr2 with h | h
  · omega
  · omega

theorem covers_block_covers_base {s : page_range_set} {p q : Nat}
    (hda : ∀ r ∈ s, 0 < r.m_page_count ∧ aligned r.m_page_start)
    (hal : aligned p) (hq1 : p ≤ q) (hq2 : q < p + UV_PAGE_SIZE)
    (hc : covers s q) : covers s p := by
  obtain ⟨r, hr, hqa, hqb⟩ := hc
  have ha := (hda r hr).2
  have ha2 : r.m_page_start % 4096 = 0 := by simpa [aligned, UV_PAGE_SIZE] using ha
  have hp2 : p % 4096 = 0 := by simpa [aligned, UV_PAGE_SIZE] using hal
  have hs := limit_eq r
  have hst : r.start = r.m_page_start := rfl
  simp only [UV_PAGE_SIZE] at hq2
  refine ⟨r, hr, ?_, ?_⟩ <;> omega

theorem TrackerWF_insert {t : donated_page_map} {d p : Nat}
    (hwf : TrackerWF t) (hal : aligned p) (hfresh : tracker_covers t p = false) :
    TrackerWF (add_page_to_donated_range t d p) := by
  obtain ⟨hwf1, hwf2⟩ := hwf
  have hfr := tracker_covers_false_elim hfresh
  have hs0wf : range_set_wf ((tracker_find t d).getD []) := by
    rcases hf : tracker_find t d with _ | s
    · exact ⟨by simp, by simp⟩
    · simpa using hwf1 d s hf
  have hs0fresh : ∀ r ∈ (tracker_find t d).getD [], ¬ r.contains p := by
    rcases hf : tracker_find t d with _ | s
    · simp
    · intro r hr hc
      exact hfr (d, s) (tracker_find_mem hf) ⟨r, by simpa using hr, hc⟩
  obtain ⟨hwfnew, hcovnew⟩ := add_page_spec hs0wf hal hs0fresh
  have hfind_self := tracker_find_add t d p
  have hfind_other : ∀ d0, d0 ≠ d →
      tracker_find (add_page_to_donated_range t d p) d0 = tracker_find t d0 := by
    intro d0 hne
    unfold add_page_to_donated_range
    rcases hf : tracker_find t d with _ | s
    · exact tracker_find_set_other t d _ d0 hne
    · exact tracker_find_set_other t d _ d0 hne
  have hold_cov : ∀ d0 s0, d0 ≠ d → tracker_find t d0 = some s0 →
      ¬ covers s0 p := by
    intro d0 s0 _ hf0 hc
    exact hfr (d0, s0) (tracker_find_mem hf0) hc
  have hcross_new : ∀ d0 s0, d0 ≠ d → tracker_find t d0 = some s0 →
      ∀ r1 ∈ add_page_to_range_set ((tracker_find t d).getD []) p,
      ∀ r2 ∈ s0, r1.limit ≤ r2.start ∨ r2.limit ≤ r1.start := by
    intro d0 s0 hne hf0
    have hs0data := (hwf1 d0 s0 hf0).2
    apply interval_disjoint_of_coverage
    · exact fun r hr => (hwfnew.2 r hr).1
    · exact fun r hr => (hs0data r hr).1
    · intro q hq
      obtain ⟨hq1, hq2⟩ := hq
      rw [hcovnew q] at hq1
      rcases hq1 with hq1 | hblock
      · rcases hf : tracker_find t d with _ | s
        · rw [hf] at hq1
          exact covers_nil hq1
        · rw [hf] at hq1
          simp only [Option.getD_some] at hq1
          have hdis := hwf2 d s d0 s0 (fun he => hne he.symm) hf hf0
          exact coverage_disjoint_of_interval hdis q ⟨hq1, hq2⟩
      · have := covers_block_covers_base hs0data hal hblock.1 hblock.2 hq2
        exact hold_cov d0 s0 hne hf0 this
  constructor
  · intro d0 s1 hf1
    by_cases hd0 : d0 = d
    · subst hd0
      rw [hfind_self] at hf1
      obtain rfl : add_page_to_range_set ((tracker_find t d0).getD []) p = s1 := by
        simpa using hf1
      exact hwfnew
    · rw [hfind_other d0 hd0] at hf1
      exact hwf1 d0 s1 hf1
  · intro d1 s1 d2 s2 hne hf1 hf2
    by_cases hd1 : d1 = d <;> by_cases hd2 : d2 = d
    · exact absurd (hd1.trans hd2.symm) hne
    · subst hd1
      rw [hfind_self] at hf1
      obtain rfl : add_page_to_range_set ((tracker_find t d1).getD []) p = s1 := by
        simpa using hf1
      rw [hfind_other d2 hd2] at hf2
      exact hcross_new d2 s2 hd2 hf2
    · subst hd2
      rw [hfind_self] at hf2
      obtain rfl : add_page_to_range_set ((tracker_find t d2).getD []) p = s2 := by
        simpa using hf2
      rw [hfind_other d1 hd1] at hf1
      intro r1 hr1 r2 hr2
      rcases hcross_new d1 s1 hd1 hf1 r2 hr2 r1 hr1 with h | h
      · exact Or.inr h
      · exact Or.inl h
    · rw [hfind_other d1 hd1] at hf1
      rw [hfind_other d2 hd2] at hf2
      exact hwf2 d1 s1 d2 s2 hne hf1 hf2

theorem TrackerWF_remove {t : donated_page_map} {d p : Nat}
    (hwf : TrackerWF t) (hal : aligned p) :
    TrackerWF (remove_page_from_donated_range t d p) := by
  rcases hf : tracker_find t d with _ | s
  · have hnoop : remove_page_from_donated_range t d p = t := by
      unfold remove_page_from_donated_range
      rw [hf]
    rw [hnoop]
    exact hwf
  obtain ⟨hwf1, hwf2⟩ := hwf
  have hswf := hwf1 d s hf
  obtain ⟨hwfnew, hcovnew⟩ := remove_page_spec hswf hal
  have hfind_self := tracker_find_remove t d p hf
  have hfind_other : ∀ d0, d0 ≠ d →
      tracker_find (remove_page_from_donated_range t d p) d0 = tracker_find t d0 := by
    intro d0 hne
    unfold remove_page_from_donated_range
    rw [hf]
    exact tracker_find_set_other t d _ d0 hne
  have hcross_new : ∀ d0 s0, d0 ≠ d → tracker_find t d0 = some s0 →
      ∀ r1 ∈ remove_page_from_range_set s p,
      ∀ r2 ∈ s0, r1.limit ≤ r2.start ∨ r2.limit ≤ r1.start := by
    intro d0 s0 hne hf0
    have hs0data := (hwf1 d0 s0 hf0).2
    apply interval_disjoint_of_coverage
    · exact fun r hr => (hwfnew.2 r hr).1
    · exact fun r hr => (hs0data r hr).1
    · intro q hq
      obtain ⟨hq1, hq2⟩ := hq
      rw [hcovnew q] at hq1
      have hdis := hwf2 d s d0 s0 (fun he => hne he.symm) hf hf0
      exact coverage_disjoint_of_interval hdis q ⟨hq1.1, hq2⟩
  constructor
  · intro d0 s1 hf1
    by_cases hd0 : d0 = d
    · subst hd0
      rw [hfind_self] at hf1
      obtain rfl : remove_page_from_range_set s p = s1 := by simpa using hf1
      exact hwfnew
    · rw [hfind_other d0 hd0] at hf1
      exact hwf1 d0 s1 hf1
  · intro d1 s1 d2 s2 hne hf1 hf2
    by_cases hd1 : d1 = d <;> by_cases hd2 : d2 = d
    · exact absurd (hd1.trans hd2.symm) hne
    · subst hd1
      rw [hfind_self] at hf1
      obtain rfl : remove_page_from_range_set s p = s1 := by simpa using hf1
      rw [hfind_other d2 hd2] at hf2
      exact hcross_new d2 s2 hd2 hf2
    · subst hd2
      rw [hfind_self] at hf2
      obtain rfl : remove_page_from_range_set s p = s2 := by simpa using hf2
      rw [hfind_other d1 hd1] at hf1
      intro r1 hr1 r2 hr2
      rcases hcross_new d1 s1 hd1 hf1 r2 hr2 r1 hr1 with h | h
      · exact Or.inr h
      · exact Or.inl h
    · rw [hfind_other d1 hd1] at hf1
      rw [hfind_other d2 hd2] at hf2
      exact hwf2 d1 s1 d2 s2 hne hf1 hf2

theorem at_most_one_of_wf {t : donated_page_map} (hwf : TrackerWF t) :
    AtMostOneInterval t := by
  intro d1 s1 d2 s2 r1 r2 q hf1 hf2 hr1 hr2 hq1 hq2
  by_cases hd : d1 = d2
  · subst hd
    rw [hf1] at hf2
    obtain rfl : s1 = s2 := by simpa using hf2
    refine ⟨rfl, ?_⟩
    by_contra hne
    have hpw := (hwf.1 d1 s1 hf1).1
    have hsympw : List.Pairwise
        (fun a b : page_range => a.limit ≤ b.start ∨ b.limit ≤ a.start) s1 :=
      hpw.imp (fun h => Or.inl h)
    have hsym := List.Pairwise.forall (fun x y hxy => hxy.symm) hsympw hr1 hr2 hne
    obtain ⟨ha1, hb1⟩ := hq1
    obtain ⟨ha2, hb2⟩ := hq2
    rcases hsym with h | h
    · omega
    · omega
  · exfalso
    have hdis := hwf.2 d1 s1 d2 s2 hd hf1 hf2 r1 hr1 r2 hr2
    obtain ⟨ha1, hb1⟩ := hq1
    obtain ⟨ha2, hb2⟩ := hq2
    rcases hdis with h | h
    · omega
    · omega

/-- C3 (amended): for every sequence of tracker inserts and removes that
respects the donation path's discipline — inserted pages are 4K-aligned
and not currently donated to any borrower, removed pages are 4K-aligned —
starting from any well-formed tracker (in particular the empty one), the
tracker stays well-formed and each guest-physical page belongs to at
most one interval across all borrowers.  Without the freshness
restriction on inserts the property fails (see the counterexample). -/
theorem C3_no_double_donation (ops : List tracker_op) (t : donated_page_map)
    (hwf : TrackerWF t) (hlegal : legal_ops t ops) :
    TrackerWF (run_ops t ops) ∧ AtMostOneInterval (run_ops t ops) := by
  have key : ∀ (os : List tracker_op) (t0 : donated_page_map), TrackerWF t0 →
      legal_ops t0 os → TrackerWF (run_ops t0 os) := by
    intro os
    induction os with
    | nil => exact fun t0 h _ => h
    | cons o os2 ih =>
      intro t0 hwf0 hlegal0
      rcases o with ⟨d, p⟩ | ⟨d, p⟩
      · obtain ⟨hal, hfresh, hrest⟩ := hlegal0
        exact ih _ (TrackerWF_insert hwf0 hal hfresh) hrest
      · obtain ⟨hal, hrest⟩ := hlegal0
        exact ih _ (TrackerWF_remove hwf0 hal) hrest
  have h := key ops t hwf hlegal
  exact ⟨h, at_most_one_of_wf h⟩

/-- C3 counterexample: inserting an already-covered page breaks the
invariant — after inserting pages 0 and 1 for borrower 1 (giving one
interval of two pages) and then re-inserting page 1, the tracker holds
two overlapping intervals, so page 1 lies in two intervals at once. -/
theorem C3_counterexample :
    ¬ AtMostOneInterval (run_ops []
      [tracker_op.insert 1 0, tracker_op.insert 1 UV_PAGE_SIZE,
       tracker_op.insert 1 UV_PAGE_SIZE]) := by
  intro h
  have h2 := h 1 [⟨0, 2⟩, ⟨UV_PAGE_SIZE, 1⟩] 1 [⟨0, 2⟩, ⟨UV_PAGE_SIZE, 1⟩]
    ⟨0, 2⟩ ⟨UV_PAGE_SIZE, 1⟩ UV_PAGE_SIZE (by decide) (by decide)
    (by decide) (by decide) (by decide) (by decide)
  exact absurd h2.2 (by decide)

/-- C3 witness: the amended theorem applied to a concrete legal
sequence of two inserts for different borrowers and one remove. -/
theorem C3_witness :
    (TrackerWF [] ∧ legal_ops []
      [tracker_op.insert 1 0, tracker_op.insert 2 4096,
       tracker_op.remove 1 0]) ∧
    (TrackerWF (run_ops []
      [tracker_op.insert 1 0, tracker_op.insert 2 4096,
       tracker_op.remove 1 0]) ∧
     AtMostOneInterval (run_ops []
      [tracker_op.insert 1 0, tracker_op.insert 2 4096,
       tracker_op.remove 1 0])) :=
  have hwf : TrackerWF [] :=
    ⟨fun d s h => by simp [tracker_find] at h,
     fun d1 s1 d2 s2 _ h => by simp [tracker_find] at h⟩
  have hlegal : legal_ops []
      [tracker_op.insert 1 0, tracker_op.insert 2 4096,
       tracker_op.remove 1 0] := by decide
  ⟨⟨hwf, hlegal⟩,
    C3_no_double_donation
      [tracker_op.insert 1 0, tracker_op.insert 2 4096, tracker_op.remove 1 0]
      [] hwf hlegal⟩

theorem install_guest_mapping_donated (st : DomState) (b : Bool) (g r : Nat)
    (p : attr_type) (m : memory_type) :
    (install_guest_mapping st b g r p m).donated = st.donated := by
  unfold install_guest_mapping
  split <;> rfl

theorem install_guest_mapping_root_ept (st : DomState) (b : Bool) (g r : Nat)
    (p : attr_type) (m : memory_type) :
    (install_guest_mapping st b g r p m).root_ept = st.root_ept := by
  unfold install_guest_mapping
  split <;> rfl

theorem install_guest_mapping_shootdown (st : DomState) (b : Bool) (g r : Nat)
    (p : attr_type) (m : memory_type) :
    (install_guest_mapping st b g r p m).shootdown_count = st.shootdown_count := by
  unfold install_guest_mapping
  split <;> rfl

theorem aligned_bfn_upper_4k (x : Nat) : aligned (bfn_upper_4k x) := by
  simp [aligned, bfn_upper_4k, UV_PAGE_SIZE, Nat.mul_mod_right]

/-- Case analysis of a successful `donate_root_page` on the root domain:
either the page was already donated and the tracker is untouched, or it
was fresh and exactly one tracker insertion happened. -/
theorem donate_success_donated_cases
    (resolve : Nat → Option (Nat × Nat)) (shootdown_ok : Bool)
    (guest_domid : Nat) (guest_is_xen : Bool) (st : DomState)
    (root_gpa guest_gpa : Nat) (perm : attr_type) (mtype : memory_type)
    (hres : (donate_root_page resolve shootdown_ok 0 guest_domid guest_is_xen st
        root_gpa guest_gpa perm mtype).1 = hypercall_result.SUCCESS) :
    (page_already_donated st.donated guest_domid (bfn_upper_4k root_gpa) = true ∧
      (donate_root_page resolve shootdown_ok 0 guest_domid guest_is_xen st
        root_gpa guest_gpa perm mtype).2.donated = st.donated) ∨
    (page_already_donated st.donated guest_domid (bfn_upper_4k root_gpa) = false ∧
      (donate_root_page resolve shootdown_ok 0 guest_domid guest_is_xen st
        root_gpa guest_gpa perm mtype).2.donated =
        add_page_to_donated_range st.donated guest_domid (bfn_upper_4k root_gpa)) := by
  by_cases hpad : page_already_donated st.donated guest_domid (bfn_upper_4k root_gpa) = true
  · left
    refine ⟨hpad, ?_⟩
    unfold donate_root_page
    simp only [ne_eq, not_true_eq_false, if_false, hpad, if_true,
      install_guest_mapping_donated]
  · rw [Bool.not_eq_true] at hpad
    right
    refine ⟨hpad, ?_⟩
    unfold donate_root_page at hres ⊢
    simp only [ne_eq, not_true_eq_false, if_false, hpad, Bool.false_eq_true,
      if_true] at hres ⊢
    rcases hre : resolve (bfn_upper_4k root_gpa) with _ | ⟨hpa, source_from⟩
    · simp only [hre] at hres
      simp at hres
    · simp only [hre] at hres ⊢
      by_cases hhpa : hpa = bfn_upper_4k root_gpa
      · simp only [hhpa, ne_eq, not_true_eq_false, if_false] at hres ⊢
        by_cases hsd : shootdown_ok = false
        · simp only [hsd, if_true] at hres
          simp at hres
        · simp only [hsd, Bool.true_eq_false, if_false] at hres ⊢
          simp only [install_guest_mapping_donated]
          split <;> rfl
      · rw [if_pos hhpa] at hres
        simp at hres

/-- After a successful `donate_root_page` on the root, the page is
recorded in the tracker and the borrower's interval set is still
well-formed. -/
theorem donate_success_already
    (resolve : Nat → Option (Nat × Nat)) (shootdown_ok : Bool)
    (guest_domid : Nat) (guest_is_xen : Bool) (st : DomState)
    (root_gpa guest_gpa : Nat) (perm : attr_type) (mtype : memory_type)
    (hwfB : ∀ s, tracker_find st.donated guest_domid = some s → range_set_wf s)
    (hres : (donate_root_page resolve shootdown_ok 0 guest_domid guest_is_xen st
        root_gpa guest_gpa perm mtype).1 = hypercall_result.SUCCESS) :
    page_already_donated
      (donate_root_page resolve shootdown_ok 0 guest_domid guest_is_xen st
        root_gpa guest_gpa perm mtype).2.donated guest_domid
      (bfn_upper_4k root_gpa) = true ∧
    (∀ s, tracker_find
      (donate_root_page resolve shootdown_ok 0 guest_domid guest_is_xen st
        root_gpa guest_gpa perm mtype).2.donated guest_domid = some s →
      range_set_wf s) := by
  rcases donate_success_donated_cases resolve shootdown_ok guest_domid guest_is_xen st
      root_gpa guest_gpa perm mtype hres with ⟨hpad, heq⟩ | ⟨hpad, heq⟩
  · rw [heq]
    exact ⟨hpad, hwfB⟩
  · rw [heq]
    have hwf0 : range_set_wf ((tracker_find st.donated guest_domid).getD []) := by
      rcases hf : tracker_find st.donated guest_domid with _ | s
      · exact ⟨by simp, by simp⟩
      · simpa using hwfB s hf
    have hfresh : ∀ r ∈ (tracker_find st.donated guest_domid).getD [],
        ¬ r.contains (bfn_upper_4k root_gpa) := by
      rcases hf : tracker_find st.donated guest_domid with _ | s
      · simp
      · unfold page_already_donated at hpad
        simp only [hf] at hpad
        simp only [Option.getD_some]
        rcases hfp : find_page_range s (bfn_upper_4k root_gpa) with _ | r
        · exact find_page_range_complete (hwfB s hf) hfp
        · rw [hfp] at hpad
          simp at hpad
    obtain ⟨hwfnew, hcovnew⟩ :=
      add_page_spec hwf0 (aligned_bfn_upper_4k root_gpa) hfresh
    have hfind := tracker_find_add st.donated guest_domid (bfn_upper_4k root_gpa)
    constructor
    · unfold page_already_donated
      simp only [hfind]
      rw [(find_page_range_isSome_iff hwfnew)]
      rw [hcovnew]
      right
      refine ⟨le_refl _, ?_⟩
      have hps : UV_PAGE_SIZE = 4096 := rfl
      omega
    · intro s hs
      rw [hfind] at hs
      obtain rfl : add_page_to_range_set ((tracker_find st.donated guest_domid).getD [])
          (bfn_upper_4k root_gpa) = s := by simpa using hs
      exact hwfnew

/-- Removing a page from a borrower's tracker entry with a well-formed
interval set leaves the page no longer donated. -/
theorem page_already_donated_remove_self {t : donated_page_map} {d p : Nat}
    (hwfB : ∀ s, tracker_find t d = some s → range_set_wf s)
    (hal : aligned p) :
    page_already_donated (remove_page_from_donated_range t d p) d p = false := by
  rcases hf : tracker_find t d with _ | s
  · have hnoop : remove_page_from_donated_range t d p = t := by
      unfold remove_page_from_donated_range
      rw [hf]
    rw [hnoop]
    unfold page_already_donated
    simp only [hf]
  · have hwf := hwfB s hf
    obtain ⟨hwfnew, hcovnew⟩ := remove_page_spec hwf hal
    have hf1 := tracker_find_remove t d p hf
    unfold page_already_donated
    simp only [hf1]
    rw [Bool.eq_false_iff]
    intro hsome
    have hcov := (find_page_range_isSome_iff hwfnew).mp hsome
    rw [hcovnew p] at hcov
    refine hcov.2 ⟨le_refl p, ?_⟩
    have hps : UV_PAGE_SIZE = 4096 := rfl
    omega

/-- C4: a successful `donate_root_page` on the root for `root_gpa`
followed — once the borrower is gone from the Domain Registry — by
`reclaim_root_page` for the same address succeeds, restores the root's
4K identity mapping with read-write-execute permission at the aligned
address, and leaves `page_already_donated` false for that page. -/
theorem C4_donate_then_reclaim
    (resolve : Nat → Option (Nat × Nat)) (shootdown_ok : Bool)
    (guest_domid : Nat) (guest_is_xen : Bool) (st : DomState)
    (root_gpa guest_gpa : Nat) (perm : attr_type) (mtype : memory_type)
    (alive : Nat → Bool)
    (hwfB : ∀ s, tracker_find st.donated guest_domid = some s → range_set_wf s)
    (hres : (donate_root_page resolve shootdown_ok 0 guest_domid guest_is_xen st
        root_gpa guest_gpa perm mtype).1 = hypercall_result.SUCCESS)
    (hdead : alive guest_domid = false) :
    (reclaim_root_page alive 0
        (donate_root_page resolve shootdown_ok 0 guest_domid guest_is_xen st
          root_gpa guest_gpa perm mtype).2 guest_domid root_gpa).1 =
      hypercall_result.SUCCESS ∧
    ept_lookup (reclaim_root_page alive 0
        (donate_root_page resolve shootdown_ok 0 guest_domid guest_is_xen st
          root_gpa guest_gpa perm mtype).2 guest_domid root_gpa).2.root_ept
        (bfn_upper_4k root_gpa) =
      some ⟨bfn_upper_4k root_gpa, 12, attr_type.read_write_execute,
        memory_type.write_back⟩ ∧
    page_already_donated (reclaim_root_page alive 0
        (donate_root_page resolve shootdown_ok 0 guest_domid guest_is_xen st
          root_gpa guest_gpa perm mtype).2 guest_domid root_gpa).2.donated
      guest_domid (bfn_upper_4k root_gpa) = false := by
  obtain ⟨hpad1, hwf1⟩ := donate_success_already resolve shootdown_ok guest_domid
    guest_is_xen st root_gpa guest_gpa perm mtype hwfB hres
  have hrec : reclaim_root_page alive 0
      (donate_root_page resolve shootdown_ok 0 guest_domid guest_is_xen st
        root_gpa guest_gpa perm mtype).2 guest_domid root_gpa =
      (hypercall_result.SUCCESS,
        { (donate_root_page resolve shootdown_ok 0 guest_domid guest_is_xen st
            root_gpa guest_gpa perm mtype).2 with
          donated := remove_page_from_donated_range
            (donate_root_page resolve shootdown_ok 0 guest_domid guest_is_xen st
              root_gpa guest_gpa perm mtype).2.donated guest_domid
            (bfn_upper_4k root_gpa),
          root_ept := map_4k_rwe
            (donate_root_page resolve shootdown_ok 0 guest_domid guest_is_xen st
              root_gpa guest_gpa perm mtype).2.root_ept
            (bfn_upper_4k root_gpa) (bfn_upper_4k root_gpa) }) := by
    unfold reclaim_root_page
    simp only [ne_eq, not_true_eq_false, if_false, hdead, Bool.false_eq_true,
      hpad1, Bool.true_eq_false, if_true]
  rw [hrec]
  refine ⟨rfl, ?_, ?_⟩
  · simp only [map_4k_rwe, map_4k]
    exact ept_lookup_set_self _ _ _
  · exact page_already_donated_remove_self hwf1 (aligned_bfn_upper_4k root_gpa)

/-- C4 witness: donating root page 0 to borrower 1 from a fresh state and
reclaiming it after the borrower dies. -/
theorem C4_witness :
    ((∀ s, tracker_find (DomState.mk [] [] [] [] 0).donated 1 = some s →
        range_set_wf s) ∧
      (donate_root_page (fun g => some (g, 12)) true 0 1 false
        (DomState.mk [] [] [] [] 0) 0 0 attr_type.read_write_execute
        memory_type.write_back).1 = hypercall_result.SUCCESS ∧
      (fun _ => false : Nat → Bool) 1 = false) ∧
    ((reclaim_root_page (fun _ => false) 0
        (donate_root_page (fun g => some (g, 12)) true 0 1 false
          (DomState.mk [] [] [] [] 0) 0 0 attr_type.read_write_execute
          memory_type.write_back).2 1 0).1 = hypercall_result.SUCCESS ∧
      ept_lookup (reclaim_root_page (fun _ => false) 0
        (donate_root_page (fun g => some (g, 12)) true 0 1 false
          (DomState.mk [] [] [] [] 0) 0 0 attr_type.read_write_execute
          memory_type.write_back).2 1 0).2.root_ept (bfn_upper_4k 0) =
        some ⟨bfn_upper_4k 0, 12, attr_type.read_write_execute,
          memory_type.write_back⟩ ∧
      page_already_donated (reclaim_root_page (fun _ => false) 0
        (donate_root_page (fun g => some (g, 12)) true 0 1 false
          (DomState.mk [] [] [] [] 0) 0 0 attr_type.read_write_execute
          memory_type.write_back).2 1 0).2.donated 1 (bfn_upper_4k 0) = false) :=
  have hwfB : ∀ s, tracker_find (DomState.mk [] [] [] [] 0).donated 1 = some s →
      range_set_wf s := by
    intro s h
    simp [tracker_find] at h
  have hres : (donate_root_page (fun g => some (g, 12)) true 0 1 false
      (DomState.mk [] [] [] [] 0) 0 0 attr_type.read_write_execute
      memory_type.write_back).1 = hypercall_result.SUCCESS := by decide
  ⟨⟨hwfB, hres, rfl⟩,
    C4_donate_then_reclaim (fun g => some (g, 12)) true 1 false
      (DomState.mk [] [] [] [] 0) 0 0 attr_type.read_write_execute
      memory_type.write_back (fun _ => false) hwfB hres rfl⟩

/-- C5: while the Domain Registry still reports the borrower as live,
both reclaim calls on the root fail and leave the whole state (tracker
and mappings included) unchanged. -/
theorem C5_reclaim_blocked_while_live (alive : Nat → Bool) (st : DomState)
    (guest_domid root_gpa : Nat) (hlive : alive guest_domid = true) :
    reclaim_root_page alive 0 st guest_domid root_gpa =
      (hypercall_result.FAILURE, st) ∧
    reclaim_root_pages alive 0 st guest_domid =
      (hypercall_result.FAILURE, st) := by
  constructor
  · unfold reclaim_root_page
    rw [if_neg (show ¬ ((0 : Nat) ≠ 0) by decide), if_pos hlive]
  · unfold reclaim_root_pages
    rw [if_neg (show ¬ ((0 : Nat) ≠ 0) by decide), if_pos hlive]

/-- C5 witness: a live borrower blocks both reclaim calls on a concrete
state. -/
theorem C5_witness :
    (fun _ => true : Nat → Bool) 1 = true ∧
    (reclaim_root_page (fun _ => true) 0 (DomState.mk [] [] [] [(1, [⟨0, 1⟩])] 0) 1 0 =
      (hypercall_result.FAILURE, DomState.mk [] [] [] [(1, [⟨0, 1⟩])] 0) ∧
    reclaim_root_pages (fun _ => true) 0 (DomState.mk [] [] [] [(1, [⟨0, 1⟩])] 0) 1 =
      (hypercall_result.FAILURE, DomState.mk [] [] [] [(1, [⟨0, 1⟩])] 0)) :=
  ⟨rfl, C5_reclaim_blocked_while_live (fun _ => true)
    (DomState.mk [] [] [] [(1, [⟨0, 1⟩])] 0) 1 0 rfl⟩

/-- C6 (amended): a non-root caller is rejected with no state change by
all three calls, but not uniformly by a returned failure code: the two
reclaim calls return FAILURE, while `donate_root_page` violates its
`expects(id() == 0)` contract, which escapes the function as a fatal
contract violation instead of a returned failure status. -/
theorem C6_nonroot_rejected
    (resolve : Nat → Option (Nat × Nat)) (shootdown_ok : Bool)
    (this_id guest_domid : Nat) (guest_is_xen : Bool) (st : DomState)
    (root_gpa guest_gpa : Nat) (perm : attr_type) (mtype : memory_type)
    (alive : Nat → Bool) (hid : this_id ≠ 0) :
    donate_root_page resolve shootdown_ok this_id guest_domid guest_is_xen st
      root_gpa guest_gpa perm mtype = (hypercall_result.FATAL_CONTRACT, st) ∧
    reclaim_root_page alive this_id st guest_domid root_gpa =
      (hypercall_result.FAILURE, st) ∧
    reclaim_root_pages alive this_id st guest_domid =
      (hypercall_result.FAILURE, st) := by
  refine ⟨?_, ?_, ?_⟩
  · unfold donate_root_page
    rw [if_pos hid]
  · unfold reclaim_root_page
    rw [if_pos hid]
  · unfold reclaim_root_pages
    rw [if_pos hid]

/-- C6 counterexample: on a domain with id 1, `donate_root_page` does not
return the FAILURE status code — the `expects` contract violation escapes
instead — so the claim that all three calls fail by returning a failure
code is false. -/
theorem C6_counterexample :
    ¬ ((donate_root_page (fun _ => none) true 1 2 false
        (DomState.mk [] [] [] [] 0) 0 0 attr_type.read_write_execute
        memory_type.write_back).1 = hypercall_result.FAILURE) := by
  decide

/-- C6 witness: the amended theorem at domain id 1. -/
theorem C6_witness :
    (1 : Nat) ≠ 0 ∧
    (donate_root_page (fun _ => none) true 1 2 false (DomState.mk [] [] [] [] 0)
        0 0 attr_type.read_write_execute memory_type.write_back =
      (hypercall_result.FATAL_CONTRACT, DomState.mk [] [] [] [] 0) ∧
    reclaim_root_page (fun _ => false) 1 (DomState.mk [] [] [] [] 0) 2 0 =
      (hypercall_result.FAILURE, DomState.mk [] [] [] [] 0) ∧
    reclaim_root_pages (fun _ => false) 1 (DomState.mk [] [] [] [] 0) 2 =
      (hypercall_result.FAILURE, DomState.mk [] [] [] [] 0)) :=
  ⟨by decide, C6_nonroot_rejected (fun _ => none) true 1 2 false
    (DomState.mk [] [] [] [] 0) 0 0 attr_type.read_write_execute
    memory_type.write_back (fun _ => false) (by decide)⟩

/-- C7: when the page is not already donated and the shootdown primitive
reports another shootdown in flight, `donate_root_page` returns the
retryable AGAIN status — distinct from both FAILURE and SUCCESS — with
the whole state (address-translation map and tracker included)
unchanged. -/
theorem C7_shootdown_in_flight_returns_again
    (resolve : Nat → Option (Nat × Nat)) (guest_domid : Nat)
    (guest_is_xen : Bool) (st : DomState) (root_gpa guest_gpa : Nat)
    (perm : attr_type) (mtype : memory_type) (source_from : Nat)
    (hpad : page_already_donated st.donated guest_domid (bfn_upper_4k root_gpa) = false)
    (hres : resolve (bfn_upper_4k root_gpa) = some (bfn_upper_4k root_gpa, source_from)) :
    donate_root_page resolve false 0 guest_domid guest_is_xen st
      root_gpa guest_gpa perm mtype = (hypercall_result.AGAIN, st) ∧
    hypercall_result.AGAIN ≠ hypercall_result.FAILURE ∧
    hypercall_result.AGAIN ≠ hypercall_result.SUCCESS := by
  refine ⟨?_, by decide, by decide⟩
  unfold donate_root_page
  simp only [ne_eq, not_true_eq_false, if_false, hpad, Bool.false_eq_true, hres,
    if_true]

/-- C7 witness: the theorem at a fresh state with an identity-resolving
oracle and a blocked shootdown. -/
theorem C7_witness :
    (page_already_donated (DomState.mk [] [] [] [] 0).donated 1 (bfn_upper_4k 0) = false ∧
      (fun g => some (g, 12) : Nat → Option (Nat × Nat)) (bfn_upper_4k 0) =
        some (bfn_upper_4k 0, 12)) ∧
    (donate_root_page (fun g => some (g, 12)) false 0 1 false
        (DomState.mk [] [] [] [] 0) 0 0 attr_type.read_write_execute
        memory_type.write_back = (hypercall_result.AGAIN, DomState.mk [] [] [] [] 0) ∧
      hypercall_result.AGAIN ≠ hypercall_result.FAILURE ∧
      hypercall_result.AGAIN ≠ hypercall_result.SUCCESS) :=
  ⟨⟨by decide, rfl⟩,
    C7_shootdown_in_flight_returns_again (fun g => some (g, 12)) 1 false
      (DomState.mk [] [] [] [] 0) 0 0 attr_type.read_write_execute
      memory_type.write_back 12 (by decide) rfl⟩

/-- C8: after a successful donation of `root_gpa` to a borrower, a
second `donate_root_page` for the same page and borrower — with any
resolver and shootdown oracles, which it never consults — detects the
page through `page_already_donated`, skips the shootdown, the 2M
demotion, the unmap and the tracker insertion (the tracker, the root's
address-translation map and the shootdown count are all unchanged), only
installs the guest-side mapping, and returns SUCCESS. -/
theorem C8_second_donate_skips_mutation
    (resolve resolve2 : Nat → Option (Nat × Nat)) (shootdown_ok shootdown_ok2 : Bool)
    (guest_domid : Nat) (guest_is_xen : Bool) (st : DomState)
    (root_gpa guest_gpa guest_gpa2 : Nat) (perm perm2 : attr_type)
    (mtype mtype2 : memory_type)
    (hwfB : ∀ s, tracker_find st.donated guest_domid = some s → range_set_wf s)
    (hres : (donate_root_page resolve shootdown_ok 0 guest_domid guest_is_xen st
        root_gpa guest_gpa perm mtype).1 = hypercall_result.SUCCESS) :
    donate_root_page resolve2 shootdown_ok2 0 guest_domid guest_is_xen
      (donate_root_page resolve shootdown_ok 0 guest_domid guest_is_xen st
        root_gpa guest_gpa perm mtype).2 root_gpa guest_gpa2 perm2 mtype2 =
      (hypercall_result.SUCCESS,
        install_guest_mapping
          (donate_root_page resolve shootdown_ok 0 guest_domid guest_is_xen st
            root_gpa guest_gpa perm mtype).2 guest_is_xen guest_gpa2
          (bfn_upper_4k root_gpa) perm2 mtype2) ∧
    (install_guest_mapping
        (donate_root_page resolve shootdown_ok 0 guest_domid guest_is_xen st
          root_gpa guest_gpa perm mtype).2 guest_is_xen guest_gpa2
        (bfn_upper_4k root_gpa) perm2 mtype2).donated =
      (donate_root_page resolve shootdown_ok 0 guest_domid guest_is_xen st
        root_gpa guest_gpa perm mtype).2.donated ∧
    (install_guest_mapping
        (donate_root_page resolve shootdown_ok 0 guest_domid guest_is_xen st
          root_gpa guest_gpa perm mtype).2 guest_is_xen guest_gpa2
        (bfn_upper_4k root_gpa) perm2 mtype2).root_ept =
      (donate_root_page resolve shootdown_ok 0 guest_domid guest_is_xen st
        root_gpa guest_gpa perm mtype).2.root_ept ∧
    (install_guest_mapping
        (donate_root_page resolve shootdown_ok 0 guest_domid guest_is_xen st
          root_gpa guest_gpa perm mtype).2 guest_is_xen guest_gpa2
        (bfn_upper_4k root_gpa) perm2 mtype2).shootdown_count =
      (donate_root_page resolve shootdown_ok 0 guest_domid guest_is_xen st
        root_gpa guest_gpa perm mtype).2.shootdown_count := by
  obtain ⟨hpad1, _⟩ := donate_success_already resolve shootdown_ok guest_domid
    guest_is_xen st root_gpa guest_gpa perm mtype hwfB hres
  refine ⟨?_, install_guest_mapping_donated _ _ _ _ _ _,
    install_guest_mapping_root_ept _ _ _ _ _ _,
    install_guest_mapping_shootdown _ _ _ _ _ _⟩
  set st1 := (donate_root_page resolve shootdown_ok 0 guest_domid guest_is_xen st
    root_gpa guest_gpa perm mtype).2 with hst1
  unfold donate_root_page
  simp only [ne_eq, not_true_eq_false, if_false, hpad1, if_true]

/-- C8 witness: donating root page 0 to borrower 1 twice from a fresh
state. -/
theorem C8_witness :
    ((∀ s, tracker_find (DomState.mk [] [] [] [] 0).donated 1 = some s →
        range_set_wf s) ∧
      (donate_root_page (fun g => some (g, 12)) true 0 1 false
        (DomState.mk [] [] [] [] 0) 0 0 attr_type.read_write_execute
        memory_type.write_back).1 = hypercall_result.SUCCESS) ∧
    donate_root_page (fun _ => none) false 0 1 false
      (donate_root_page (fun g => some (g, 12)) true 0 1 false
        (DomState.mk [] [] [] [] 0) 0 0 attr_type.read_write_execute
        memory_type.write_back).2 0 8 attr_type.read_write memory_type.uncacheable =
      (hypercall_result.SUCCESS,
        install_guest_mapping
          (donate_root_page (fun g => some (g, 12)) true 0 1 false
            (DomState.mk [] [] [] [] 0) 0 0 attr_type.read_write_execute
            memory_type.write_back).2 false 8 (bfn_upper_4k 0)
          attr_type.read_write memory_type.uncacheable) :=
  have hwfB : ∀ s, tracker_find (DomState.mk [] [] [] [] 0).donated 1 = some s →
      range_set_wf s := by
    intro s h
    simp [tracker_find] at h
  have hres : (donate_root_page (fun g => some (g, 12)) true 0 1 false
      (DomState.mk [] [] [] [] 0) 0 0 attr_type.read_write_execute
      memory_type.write_back).1 = hypercall_result.SUCCESS := by decide
  ⟨⟨hwfB, hres⟩,
    (C8_second_donate_skips_mutation (fun g => some (g, 12)) (fun _ => none)
      true false 1 false (DomState.mk [] [] [] [] 0) 0 0 8
      attr_type.read_write_execute attr_type.read_write
      memory_type.write_back memory_type.uncacheable hwfB hres).1⟩

theorem add_iommu_flush (st : IommuSetupState) (i : Nat) :
    (add_iommu st i).ept_flush_count = st.ept_flush_count := by
  unfold add_iommu
  split <;> rfl

/-- C9: with assigned devices whose IOMMUs have coherent-page-walk flags
containing a `false` (in either order), `prepare_iommus` records overall
coherence `false` on the address-translation map and performs exactly one
flush of the translation tables; with flags all `true` it records
coherence `true` and performs no flush. -/
theorem C9_iommu_coherence_and_flush (st : IommuSetupState) (a b : Nat) :
    ((prepare_iommus [⟨a, true, true⟩, ⟨b, false, true⟩] st).ept_iommu_coherent = false ∧
      (prepare_iommus [⟨a, true, true⟩, ⟨b, false, true⟩] st).ept_flush_count =
        st.ept_flush_count + 1) ∧
    ((prepare_iommus [⟨a, false, true⟩, ⟨b, true, true⟩] st).ept_iommu_coherent = false ∧
      (prepare_iommus [⟨a, false, true⟩, ⟨b, true, true⟩] st).ept_flush_count =
        st.ept_flush_count + 1) ∧
    ((prepare_iommus [⟨a, true, true⟩, ⟨b, true, true⟩] st).ept_iommu_coherent = true ∧
      (prepare_iommus [⟨a, true, true⟩, ⟨b, true, true⟩] st).ept_flush_count =
        st.ept_flush_count) := by
  refine ⟨⟨?_, ?_⟩, ⟨?_, ?_⟩, ⟨?_, ?_⟩⟩ <;>
    simp [prepare_iommus, add_iommu_flush]

/-- Removing a page for any borrower never erases any borrower's key
from the tracker: `donated_pages_to_guest` is unchanged. -/
theorem remove_preserves_key (t0 : donated_page_map) (d1 p d0 : Nat) :
    donated_pages_to_guest (remove_page_from_donated_range t0 d1 p) d0 =
      donated_pages_to_guest t0 d0 := by
  unfold remove_page_from_donated_range
  rcases h : tracker_find t0 d1 with _ | s
  · rfl
  · unfold donated_pages_to_guest
    by_cases hd : d0 = d1
    · subst hd
      rw [tracker_find_set_self, h]
      rfl
    · rw [tracker_find_set_other t0 d1 _ d0 hd]

/-- Folding `remove_page_from_donated_range` over a list of pages, as
`reclaim_root_page` does one call at a time. -/
def remove_pages (t : donated_page_map) (d : Nat) (ps : List Nat) :
    donated_page_map :=
  ps.foldl (fun acc p => remove_page_from_donated_range acc d p) t

theorem remove_pages_find (d : Nat) :
    ∀ (ps : List Nat) (t : donated_page_map) (s : page_range_set),
    tracker_find t d = some s → range_set_wf s → (∀ p ∈ ps, aligned p) →
    ∃ s', tracker_find (remove_pages t d ps) d = some s' ∧ range_set_wf s' ∧
      (∀ q, covers s' q ↔
        (covers s q ∧ ∀ p ∈ ps, ¬ (p ≤ q ∧ q < p + UV_PAGE_SIZE))) := by
  intro ps
  induction ps with
  | nil =>
    intro t s hf hwf _
    exact ⟨s, hf, hwf, by simp⟩
  | cons p ps ih =>
    intro t s hf hwf hal
    obtain ⟨hwf1, hcov1⟩ := remove_page_spec hwf (hal p (by simp))
    have hf1 := tracker_find_remove t d p hf
    obtain ⟨s', h1, h2, h3⟩ := ih (remove_page_from_donated_range t d p)
      (remove_page_from_range_set s p) hf1 hwf1
      (fun q hq => hal q (by simp [hq]))
    refine ⟨s', by simpa [remove_pages, List.foldl_cons] using h1, h2, ?_⟩
    intro q
    rw [h3 q, hcov1 q]
    simp only [List.mem_cons]
    constructor
    · rintro ⟨⟨hc, h1b⟩, h2b⟩
      refine ⟨hc, fun p0 hp0 => ?_⟩
      rcases hp0 with rfl | hp0
      · exact h1b
      · exact h2b p0 hp0
    · rintro ⟨hc, h⟩
      exact ⟨⟨hc, h p (Or.inl rfl)⟩, fun p0 hp0 => h p0 (Or.inr hp0)⟩

/-- After `reclaim_root_pages` for a dead borrower, the borrower's key is
gone from the tracker regardless of the starting state. -/
theorem reclaim_pages_erases_key (alive : Nat → Bool) (st0 : DomState) (d : Nat)
    (hdead : alive d = false) :
    donated_pages_to_guest (reclaim_root_pages alive 0 st0 d).2.donated d = false := by
  unfold reclaim_root_pages
  rw [if_neg (show ¬ ((0 : Nat) ≠ 0) by decide)]
  rw [if_neg (by simp [hdead])]
  rcases h : tracker_find st0.donated d with _ | rs
  · simp [donated_pages_to_guest, h]
  · simp [donated_pages_to_guest, tracker_find_erase_self]

/-- C10: single-page removal (the `reclaim_root_page` path) never erases
a borrower's key from the tracker; removing, one page at a time, a set
of aligned pages that covers everything donated to the borrower leaves
`donated_pages_to_guest` true with `page_already_donated` false for
every address; and `reclaim_root_pages` (which erases the whole entry
for a dead borrower) is what makes `donated_pages_to_guest` false. -/
theorem C10_key_survives_removals
    (t : donated_page_map) (d : Nat) (s : page_range_set) (ps : List Nat)
    (alive : Nat → Bool)
    (hfind : tracker_find t d = some s)
    (hwf : range_set_wf s)
    (hal : ∀ p ∈ ps, aligned p)
    (hall : ∀ q, covers s q → ∃ p ∈ ps, p ≤ q ∧ q < p + UV_PAGE_SIZE)
    (hdead : alive d = false) :
    (∀ t0 d1 p d0, donated_pages_to_guest (remove_page_from_donated_range t0 d1 p) d0 =
      donated_pages_to_guest t0 d0) ∧
    donated_pages_to_guest (remove_pages t d ps) d = true ∧
    (∀ gpa, page_already_donated (remove_pages t d ps) d gpa = false) ∧
    (∀ st0 : DomState,
      donated_pages_to_guest (reclaim_root_pages alive 0 st0 d).2.donated d = false) := by
  obtain ⟨s', h1, h2, h3⟩ := remove_pages_find d ps t s hfind hwf hal
  have hempty : ∀ q, ¬ covers s' q := by
    intro q hq
    rw [h3 q] at hq
    obtain ⟨hc, hnone⟩ := hq
    obtain ⟨p, hp, hb⟩ := hall q hc
    exact hnone p hp hb
  refine ⟨remove_preserves_key, ?_, ?_, fun st0 => reclaim_pages_erases_key alive st0 d hdead⟩
  · unfold donated_pages_to_guest
    rw [h1]
    rfl
  · intro gpa
    unfold page_already_donated
    simp only [h1]
    rw [Bool.eq_false_iff]
    intro hsome
    exact hempty gpa ((find_page_range_isSome_iff h2).mp hsome)

/-- C10 witness: borrower 1 donated pages 0 and 1; removing both keeps
the key with an empty donation record, and `reclaim_root_pages` erases
it. -/
theorem C10_witness :
    (tracker_find [(1, [⟨0, 2⟩])] 1 = some [⟨0, 2⟩] ∧
      range_set_wf [⟨0, 2⟩] ∧
      (∀ p ∈ [0, 4096], aligned p) ∧
      (∀ q, covers [⟨0, 2⟩] q → ∃ p ∈ [0, 4096], p ≤ q ∧ q < p + UV_PAGE_SIZE) ∧
      (fun _ => false : Nat → Bool) 1 = false) ∧
    (donated_pages_to_guest (remove_pages [(1, [⟨0, 2⟩])] 1 [0, 4096]) 1 = true ∧
      (∀ gpa, page_already_donated (remove_pages [(1, [⟨0, 2⟩])] 1 [0, 4096]) 1 gpa =
        false) ∧
      (∀ st0 : DomState, donated_pages_to_guest
        (reclaim_root_pages (fun _ => false) 0 st0 1).2.donated 1 = false)) :=
  have hfind : tracker_find [(1, [⟨0, 2⟩])] 1 = some [⟨0, 2⟩] := by decide
  have hwf : range_set_wf [⟨0, 2⟩] := by
    refine ⟨by simp, ?_⟩
    intro r hr
    simp only [List.mem_singleton] at hr
    subst hr
    exact ⟨by decide, by decide⟩
  have hal : ∀ p ∈ [0, 4096], aligned p := by
    intro p hp
    simp only [List.mem_cons, List.not_mem_nil, or_false] at hp
    rcases hp with rfl | rfl
    · decide
    · decide
  have hall : ∀ q, covers [⟨0, 2⟩] q → ∃ p ∈ [0, 4096], p ≤ q ∧ q < p + UV_PAGE_SIZE := by
    rintro q ⟨r, hr, h1, h2⟩
    simp only [List.mem_singleton] at hr
    subst hr
    simp only [page_range.start, page_range.limit, UV_PAGE_SIZE] at h1 h2 ⊢
    by_cases hq : q < 4096
    · exact ⟨0, by simp, by omega⟩
    · exact ⟨4096, by simp, by omega⟩
  have h := C10_key_survives_removals [(1, [⟨0, 2⟩])] 1 [⟨0, 2⟩] [0, 4096]
    (fun _ => false) hfind hwf hal hall rfl
  ⟨⟨hfind, hwf, hal, hall, rfl⟩, h.2.1, h.2.2.1, h.2.2.2⟩

end MicroV
